import Mathlib

/-!
Shallow embedding of the r1cs circuit-proof prover
(`src/circuit_proof/prover.rs`) of the bulletproofs repository.

The scalar field of the curve is embedded as an arbitrary field `F`;
curve points as an arbitrary `F`-module `P`; compressed points as an
abstract type `C`.  External collaborators (point compression, the
Fiat-Shamir challenge function, the inner-product argument) are passed
in as an `Externals` record, so every definition stays executable.
Fallible code returns `Except`/`Option`; a Rust panic (failed
`assert_eq!` or out-of-bounds index) is modelled as `Option.none`.
-/

namespace Bulletproofs

/-- Modelled from the spec: the `Variable` enum of the symbolic wire model
(its defining file is not under `src/`): left/right/output wires of the
i-th multiplication gate, the i-th externally committed value, and the
constant one. -/
inductive Variable : Type
  | MultiplierLeft (i : Nat)
  | MultiplierRight (i : Nat)
  | MultiplierOutput (i : Nat)
  | Committed (i : Nat)
  | One
  deriving DecidableEq, Repr

/-- Modelled from the spec: a `LinearCombination` is an ordered collection of
(Variable, coefficient) pairs representing `Σ coeff_k * var_k`. -/
structure LinearCombination (F : Type) : Type where
  terms : List (Variable × F)
  deriving DecidableEq

/-- Modelled from the spec: an `Assignment` is either a known scalar value or
missing (`assignment.rs` is not under `src/`). -/
inductive Assignment (F : Type) : Type
  | value (x : F)
  | missing
  deriving DecidableEq

/-- Modelled from the spec: multiplying two Assignments yields the known
product only if both are known, otherwise missing. -/
def Assignment.mul {F : Type} [Mul F] : Assignment F → Assignment F → Assignment F
  | Assignment.value a, Assignment.value b => Assignment.value (a * b)
  | _, _ => Assignment.missing

/-- Modelled from the spec: the two error kinds of `R1CSError` that the prover
can raise (`errors.rs` is not under `src/`): witness-incomplete and
generator-capacity-exceeded. -/
inductive R1CSError : Type
  | MissingAssignment
  | InvalidGeneratorsLength
  deriving DecidableEq, Repr

/-- Modelled from the spec: one absorption into the Merlin transcript
(`transcript.rs` is not under `src/`): the r1cs domain-separation tag
encoding `m`, a labelled compressed point, a labelled scalar, or the
state change caused by extracting a labelled challenge. -/
inductive TEvent (F C : Type) : Type
  | domainSep (m : Nat)
  | point (label : String) (pt : C)
  | scalarEv (label : String) (s : F)
  | chalEv (label : String)
  deriving DecidableEq

/-- Modelled from the spec: the Pedersen generators, a fixed pair of public
bases (`generators.rs` is not under `src/`). -/
structure PedersenGens (P : Type) : Type where
  B : P
  B_blinding : P
  deriving DecidableEq

/-- Modelled from the spec: `commit(value, blinding) = value·B + blinding·B_blinding`. -/
def PedersenGens.commit {F P : Type} [Field F] [AddCommGroup P] [Module F P]
    (g : PedersenGens P) (v r : F) : P :=
  v • g.B + r • g.B_blinding

/-- Modelled from the spec: the Bulletproof generators expose a capacity and
two families of base points (the party-0 share used by the prover);
`generators.rs` is not under `src/`. -/
structure BulletproofGens (P : Type) : Type where
  gens_capacity : Nat
  Gv : List P
  Hv : List P
  deriving DecidableEq

/-- The prover constraint-system state, translated from the `ProverCS` struct:
the borrowed transcript (as its list of absorptions), the generator handles,
the registered constraints, the three gate witness vectors and the committed
input openings. -/
structure ProverCS (F P C : Type) : Type where
  transcript : List (TEvent F C)
  bp_gens : BulletproofGens P
  pc_gens : PedersenGens P
  constraints : List (LinearCombination F)
  a_L : List F
  a_R : List F
  a_O : List F
  v : List F
  v_blinding : List F
  deriving DecidableEq

/-- The proof artifact, translated from the `R1CSProof` struct. -/
structure R1CSProof (F C Ipp : Type) : Type where
  A_I : C
  A_O : C
  S : C
  T_1 : C
  T_3 : C
  T_4 : C
  T_5 : C
  T_6 : C
  t_x : F
  t_x_blinding : F
  e_blinding : F
  ipp_proof : Ipp
  deriving DecidableEq

/-- The external collaborators consumed by the prover, modelled as opaque-but-
executable functions: point compression, the transcript challenge function
(a function of all prior absorptions and the label), and the inner-product
argument constructor. -/
structure Externals (F P C Ipp : Type) : Type where
  compress : P → C
  chal : List (TEvent F C) → String → F
  ippCreate : List (TEvent F C) → P → List F → List P → List P → List F → List F → Ipp

/-- The random choices drawn from the prover's `TranscriptRng` during `prove`,
made explicit inputs of the embedding (in draw order: the three commitment
blindings, the two blinding vectors, the five sampled `t_i` blindings). -/
structure Rand (F : Type) : Type where
  i_blinding : F
  o_blinding : F
  s_blinding : F
  s_L : Nat → F
  s_R : Nat → F
  t_1_blinding : F
  t_3_blinding : F
  t_4_blinding : F
  t_5_blinding : F
  t_6_blinding : F

variable {F P C Ipp : Type}

/-- Translation of `ProverCS::assign_multiplier`: all of `left`, `right`,
`out` are unwrapped (missing becomes `R1CSError::MissingAssignment`) before
any of the three witness arrays is mutated; on success each array grows by
one and the returned `Variable`s carry index `len(a_L) - 1`.  The resulting
state is returned alongside the `Result`. -/
def ProverCS.assign_multiplier (cs : ProverCS F P C)
    (left right out : Assignment F) :
    Except R1CSError (Variable × Variable × Variable) × ProverCS F P C :=
  match left with
  | Assignment.missing => (Except.error R1CSError.MissingAssignment, cs)
  | Assignment.value l =>
    match right with
    | Assignment.missing => (Except.error R1CSError.MissingAssignment, cs)
    | Assignment.value r =>
      match out with
      | Assignment.missing => (Except.error R1CSError.MissingAssignment, cs)
      | Assignment.value o =>
        let cs' : ProverCS F P C :=
          { cs with a_L := cs.a_L ++ [l], a_R := cs.a_R ++ [r], a_O := cs.a_O ++ [o] }
        (Except.ok
          (Variable.MultiplierLeft (cs'.a_L.length - 1),
           Variable.MultiplierRight (cs'.a_R.length - 1),
           Variable.MultiplierOutput (cs'.a_O.length - 1)), cs')

/-- Translation of `ProverCS::assign_uncommitted`: computes
`val_3 = val_1 * val_2` (missing-propagating) and delegates to
`assign_multiplier`, discarding the output wire. -/
def ProverCS.assign_uncommitted [Mul F] (cs : ProverCS F P C)
    (val_1 val_2 : Assignment F) :
    Except R1CSError (Variable × Variable) × ProverCS F P C :=
  let val_3 := val_1.mul val_2
  match cs.assign_multiplier val_1 val_2 val_3 with
  | (Except.error e, cs') => (Except.error e, cs')
  | (Except.ok (left, right, _), cs') => (Except.ok (left, right), cs')

/-- Translation of `ProverCS::add_constraint`: appends the linear combination
to the constraint list with no validation. -/
def ProverCS.add_constraint (cs : ProverCS F P C) (lc : LinearCombination F) :
    ProverCS F P C :=
  { cs with constraints := cs.constraints ++ [lc] }

/-- Translation of `ProverCS::challenge_scalar`: derives a scalar from the
transcript state and the label, advancing the transcript. -/
def ProverCS.challenge_scalar (ext : Externals F P C Ipp) (cs : ProverCS F P C)
    (label : String) : F × ProverCS F P C :=
  (ext.chal cs.transcript label,
   { cs with transcript := cs.transcript ++ [TEvent.chalEv label] })

/-- Helper of `ProverCS::new`: the per-index loop body, producing the
transcript absorptions, the compressed commitments and the `Committed`
variables for the openings `(v_i, v_blinding_i)` starting at index `i`. -/
def newLoop [Field F] [AddCommGroup P] [Module F P] (ext : Externals F P C Ipp)
    (pc_gens : PedersenGens P) : List (F × F) → Nat → List (TEvent F C) × List C × List Variable
  | [], _ => ([], [], [])
  | (vi, bi) :: rest, i =>
    let Vc := ext.compress (pc_gens.commit vi bi)
    let (es, cos, vars) := newLoop ext pc_gens rest (i + 1)
    (TEvent.point "V" Vc :: es, Vc :: cos, Variable.Committed i :: vars)

/-- Translation of `ProverCS::new`: asserts `v.len() == v_blinding.len()`
(a failed assertion is `none`), absorbs the r1cs domain-separation tag for
`m`, then commits each opening, absorbing each compressed commitment under
label `V` and allocating `Variable::Committed(i)`; returns the constraint
system with empty constraint and witness lists together with the variables
and the commitments. -/
def ProverCS.new [Field F] [AddCommGroup P] [Module F P] (ext : Externals F P C Ipp)
    (bp_gens : BulletproofGens P) (pc_gens : PedersenGens P)
    (transcript : List (TEvent F C)) (v v_blinding : List F) :
    Option (ProverCS F P C × List Variable × List C) :=
  if v.length = v_blinding.length then
    let m := v.length
    let (es, commitments, vars) := newLoop ext pc_gens (v.zip v_blinding) 0
    some
      ({ transcript := transcript ++ TEvent.domainSep m :: es,
         bp_gens := bp_gens,
         pc_gens := pc_gens,
         constraints := [],
         a_L := [],
         a_R := [],
         a_O := [],
         v := v,
         v_blinding := v_blinding }, vars, commitments)
  else none

/-- Translation of Rust's `usize::is_power_of_two` bit trick:
`n != 0 && n & (n - 1) == 0`. -/
def isPow2 (n : Nat) : Bool :=
  n != 0 && (n &&& (n - 1)) == 0

/-- Fuel-driven helper for `usize::next_power_of_two` (structural recursion so
that the kernel can evaluate it). -/
def nextPow2Fuel : Nat → Nat → Nat
  | _, 0 => 1
  | n, fuel + 1 => if n ≤ 1 then 1 else 2 * nextPow2Fuel ((n + 1) / 2) fuel

/-- Translation of Rust's `usize::next_power_of_two`: the smallest power of
two greater than or equal to `n` (and `1` for `n ≤ 1`). -/
def nextPowerOfTwo (n : Nat) : Nat :=
  nextPow2Fuel n n

/-- The padding loop of `ProverCS::prove` step 0: `pad` calls to
`assign_multiplier` with known-zero assignments, discarding the returned
variables (the `let _ =` of the source). -/
def padLoop [Field F] : Nat → ProverCS F P C → ProverCS F P C
  | 0, cs => cs
  | k + 1, cs =>
    padLoop k
      (cs.assign_multiplier (Assignment.value 0) (Assignment.value 0)
        (Assignment.value 0)).2

/-- Translation of the padding step of `ProverCS::prove`: if the gate count is
neither `0` nor a power of two, pad with zero gates up to the next power of
two; otherwise leave the system unchanged. -/
def padIfNeeded [Field F] (cs : ProverCS F P C) : ProverCS F P C :=
  let temp_n := cs.a_L.length
  if temp_n = 0 ∨ isPow2 temp_n = true then cs
  else padLoop (nextPowerOfTwo temp_n - temp_n) cs

/-- The four dense weight vectors being accumulated by
`ProverCS::flattened_constraints`. -/
structure FlatState (F : Type) : Type where
  wL : List F
  wR : List F
  wO : List F
  wV : List F
  deriving DecidableEq

/-- Embedding of the Rust indexed addition `v[i] += x`: `none` models the
panic on an out-of-range index. -/
def addAt [Add F] (l : List F) (i : Nat) (x : F) : Option (List F) :=
  if h : i < l.length then some (l.set i (l.get ⟨i, h⟩ + x)) else none

/-- Embedding of the Rust indexed subtraction `v[i] -= x`: `none` models the
panic on an out-of-range index. -/
def subAt [Sub F] (l : List F) (i : Nat) (x : F) : Option (List F) :=
  if h : i < l.length then some (l.set i (l.get ⟨i, h⟩ - x)) else none

/-- One term of the inner loop of `flattened_constraints`: multiplier-left/
right/output terms add `exp_z * coeff` into `wL`/`wR`/`wO` at the gate index,
`Committed` terms subtract it from `wV` at the committed index, and `One`
terms are skipped. -/
def applyTerm [Field F] (exp_z : F) (st : FlatState F) :
    Variable × F → Option (FlatState F)
  | (Variable.MultiplierLeft i, coeff) =>
    (addAt st.wL i (exp_z * coeff)).map fun l => { st with wL := l }
  | (Variable.MultiplierRight i, coeff) =>
    (addAt st.wR i (exp_z * coeff)).map fun l => { st with wR := l }
  | (Variable.MultiplierOutput i, coeff) =>
    (addAt st.wO i (exp_z * coeff)).map fun l => { st with wO := l }
  | (Variable.Committed i, coeff) =>
    (subAt st.wV i (exp_z * coeff)).map fun l => { st with wV := l }
  | (Variable.One, _) => some st

/-- The inner loop of `flattened_constraints` over the terms of one
constraint. -/
def applyTerms [Field F] (exp_z : F) :
    FlatState F → List (Variable × F) → Option (FlatState F)
  | st, [] => some st
  | st, t :: rest =>
    match applyTerm exp_z st t with
    | none => none
    | some st' => applyTerms exp_z st' rest

/-- The outer loop of `flattened_constraints` over the registered constraints,
with `exp_z` starting at `z` and multiplied by `z` after each constraint. -/
def flatLoop [Field F] (z : F) :
    F → FlatState F → List (LinearCombination F) → Option (FlatState F)
  | _, st, [] => some st
  | exp_z, st, lc :: rest =>
    match applyTerms exp_z st lc.terms with
    | none => none
    | some st' => flatLoop z (exp_z * z) st' rest

/-- Translation of `ProverCS::flattened_constraints`: starting from four
zero vectors of lengths `n, n, n, m`, accumulate every term of every
constraint; `none` models the panic on an out-of-range wire index. -/
def ProverCS.flattened_constraints [Field F] (cs : ProverCS F P C) (z : F) :
    Option (List F × List F × List F × List F) :=
  let n := cs.a_L.length
  let m := cs.v.length
  (flatLoop z z
      { wL := List.replicate n 0, wR := List.replicate n 0,
        wO := List.replicate n 0, wV := List.replicate m 0 }
      cs.constraints).map fun st => (st.wL, st.wR, st.wO, st.wV)

/-- Whether a variable's index is strictly below the relevant bound
(`nL`/`nR`/`nO` for the three wire kinds, `m` for committed inputs; `One`
has no index). -/
def Variable.inBounds (nL nR nO m : Nat) : Variable → Bool
  | Variable.MultiplierLeft i => decide (i < nL)
  | Variable.MultiplierRight i => decide (i < nR)
  | Variable.MultiplierOutput i => decide (i < nO)
  | Variable.Committed i => decide (i < m)
  | Variable.One => true

/-- The data-model invariant of the spec for a prover state: every wire index
used by a registered constraint is below the gate count and every committed
index is below the committed-input count. -/
def ProverCS.wfB (cs : ProverCS F P C) : Bool :=
  cs.constraints.all fun lc =>
    lc.terms.all fun t =>
      t.1.inBounds cs.a_L.length cs.a_L.length cs.a_L.length cs.v.length

/-- The total coefficient with which a given variable occurs in a term
list. -/
def coeffOf [Field F] (terms : List (Variable × F)) (var : Variable) : F :=
  (terms.map fun t => if t.1 = var then t.2 else 0).sum

/-- The witness value of a variable: gate wires read the three witness
vectors, `Committed` reads `v`, and `One` is the constant `1`. -/
def Variable.valueIn [Field F] (aL aR aO v : List F) : Variable → F
  | Variable.MultiplierLeft i => aL.getD i 0
  | Variable.MultiplierRight i => aR.getD i 0
  | Variable.MultiplierOutput i => aO.getD i 0
  | Variable.Committed i => v.getD i 0
  | Variable.One => 1

/-- Evaluation of a linear combination under a witness: `Σ coeff_k · var_k`
with `One = 1`. -/
def LinearCombination.evalWith [Field F] (aL aR aO v : List F)
    (lc : LinearCombination F) : F :=
  (lc.terms.map fun t => t.2 * t.1.valueIn aL aR aO v).sum

/-- Modelled from the spec: a degree-3 vector polynomial (`util.rs` is not
under `src/`), coefficient vectors indexed by degree. -/
structure VecPoly3 (F : Type) : Type where
  c0 : List F
  c1 : List F
  c2 : List F
  c3 : List F
  deriving DecidableEq

/-- Modelled from the spec: a degree-6 scalar polynomial with no constant and
no committed `t_0` slot (`util.rs` is not under `src/`). -/
structure Poly6 (F : Type) : Type where
  t1 : F
  t2 : F
  t3 : F
  t4 : F
  t5 : F
  t6 : F
  deriving DecidableEq

/-- Inner product of two scalar vectors, `Σ a_i * b_i` over the common
length. -/
def dotF [Field F] (a b : List F) : F :=
  (List.zipWith (fun x y => x * y) a b).sum

/-- Modelled from the spec: `⟨l(X), r(X)⟩` as a degree-6 polynomial via
coefficient convolution (the sum over all pairs of coefficient degrees adding
to each output degree; the degree-0 slot is not represented). -/
def VecPoly3.inner_product [Field F] (l r : VecPoly3 F) : Poly6 F :=
  { t1 := dotF l.c0 r.c1 + dotF l.c1 r.c0,
    t2 := dotF l.c0 r.c2 + dotF l.c1 r.c1 + dotF l.c2 r.c0,
    t3 := dotF l.c0 r.c3 + dotF l.c1 r.c2 + dotF l.c2 r.c1 + dotF l.c3 r.c0,
    t4 := dotF l.c1 r.c3 + dotF l.c2 r.c2 + dotF l.c3 r.c1,
    t5 := dotF l.c2 r.c3 + dotF l.c3 r.c2,
    t6 := dotF l.c3 r.c3 }

/-- Modelled from the spec: evaluation of a `Poly6` at `x`
(`t1·x + t2·x² + ... + t6·x⁶`, Horner form). -/
def Poly6.eval [Field F] (p : Poly6 F) (x : F) : F :=
  x * (p.t1 + x * (p.t2 + x * (p.t3 + x * (p.t4 + x * (p.t5 + x * p.t6)))))

/-- Modelled from the spec: entrywise evaluation of a `VecPoly3` at `x`. -/
def VecPoly3.eval [Field F] (p : VecPoly3 F) (x : F) : List F :=
  (List.range p.c0.length).map fun i =>
    p.c0.getD i 0 + x * (p.c1.getD i 0 + x * (p.c2.getD i 0 + x * p.c3.getD i 0))

/-- Modelled from the spec: the first `n` entries of `util::exp_iter(x)`, the
iterator of powers of `x` built by repeated multiplication starting from
`acc`. -/
def expList [Field F] (x : F) : Nat → F → List F
  | 0, _ => []
  | n + 1, acc => acc :: expList x n (acc * x)

/-- Multiscalar multiplication, `Σ s_i • P_i` over the common length. -/
def multiscalar_mul [Field F] [AddCommGroup P] [Module F P]
    (scalars : List F) (points : List P) : P :=
  (List.zipWith (fun s p => s • p) scalars points).sum

/-- The vectors `s_L`, `s_R` of `n` random blinding scalars drawn in
`prove`. -/
def sLvec (rand : Rand F) (n : Nat) : List F :=
  (List.range n).map rand.s_L

/-- The second random blinding vector drawn in `prove`. -/
def sRvec (rand : Rand F) (n : Nat) : List F :=
  (List.range n).map rand.s_R

variable [Field F] [AddCommGroup P] [Module F P]

/-- The commitment `A_I = <a_L, G> + <a_R, H> + i_blinding * B_blinding` of
`prove`, compressed. -/
def A_I_of (ext : Externals F P C Ipp) (cs : ProverCS F P C) (rand : Rand F) : C :=
  let n := cs.a_L.length
  ext.compress (multiscalar_mul (rand.i_blinding :: (cs.a_L ++ cs.a_R))
    (cs.pc_gens.B_blinding :: (cs.bp_gens.Gv.take n ++ cs.bp_gens.Hv.take n)))

/-- The commitment `A_O = <a_O, G> + o_blinding * B_blinding` of `prove`,
compressed. -/
def A_O_of (ext : Externals F P C Ipp) (cs : ProverCS F P C) (rand : Rand F) : C :=
  let n := cs.a_L.length
  ext.compress (multiscalar_mul (rand.o_blinding :: cs.a_O)
    (cs.pc_gens.B_blinding :: cs.bp_gens.Gv.take n))

/-- The commitment `S = <s_L, G> + <s_R, H> + s_blinding * B_blinding` of
`prove`, compressed. -/
def S_of (ext : Externals F P C Ipp) (cs : ProverCS F P C) (rand : Rand F) : C :=
  let n := cs.a_L.length
  ext.compress (multiscalar_mul (rand.s_blinding :: (sLvec rand n ++ sRvec rand n))
    (cs.pc_gens.B_blinding :: (cs.bp_gens.Gv.take n ++ cs.bp_gens.Hv.take n)))

/-- The transcript after `prove` absorbs `A_I`, `A_O`, `S`. -/
def tAfterAOS (ext : Externals F P C Ipp) (cs : ProverCS F P C) (rand : Rand F) :
    List (TEvent F C) :=
  cs.transcript ++
    [TEvent.point "A_I" (A_I_of ext cs rand),
     TEvent.point "A_O" (A_O_of ext cs rand),
     TEvent.point "S" (S_of ext cs rand)]

/-- The challenge `y` of `prove`. -/
def y_of (ext : Externals F P C Ipp) (cs : ProverCS F P C) (rand : Rand F) : F :=
  ext.chal (tAfterAOS ext cs rand) "y"

/-- The transcript after the challenge `y` is extracted. -/
def tAfterY (ext : Externals F P C Ipp) (cs : ProverCS F P C) (rand : Rand F) :
    List (TEvent F C) :=
  tAfterAOS ext cs rand ++ [TEvent.chalEv "y"]

/-- The challenge `z` of `prove`. -/
def z_of (ext : Externals F P C Ipp) (cs : ProverCS F P C) (rand : Rand F) : F :=
  ext.chal (tAfterY ext cs rand) "z"

/-- The transcript after the challenge `z` is extracted. -/
def tAfterZ (ext : Externals F P C Ipp) (cs : ProverCS F P C) (rand : Rand F) :
    List (TEvent F C) :=
  tAfterY ext cs rand ++ [TEvent.chalEv "z"]

/-- The per-index loop of `prove` building `l(X)` and `r(X)`: with `exp_y`
the running power `y^i` and `exp_y_inv` the precomputed powers of `y⁻¹`,
`l = (0, a_L + y⁻ⁱ·wR, a_O, s_L)` and `r = (wO − yⁱ, yⁱ·a_R + wL, 0, yⁱ·s_R)`. -/
def buildLRPolys (aL aR aO sL sR wL wR wO exp_y_inv : List F) (y : F) (n : Nat) :
    VecPoly3 F × VecPoly3 F :=
  let exp_y := expList y n 1
  ({ c0 := List.replicate n 0,
     c1 := (List.range n).map fun i => aL.getD i 0 + exp_y_inv.getD i 0 * wR.getD i 0,
     c2 := (List.range n).map fun i => aO.getD i 0,
     c3 := (List.range n).map fun i => sL.getD i 0 },
   { c0 := (List.range n).map fun i => wO.getD i 0 - exp_y.getD i 0,
     c1 := (List.range n).map fun i => exp_y.getD i 0 * aR.getD i 0 + wL.getD i 0,
     c2 := List.replicate n 0,
     c3 := (List.range n).map fun i => exp_y.getD i 0 * sR.getD i 0 })

/-- Everything `prove` does after `flattened_constraints` succeeds, given the
already-padded system and the four flattened weight vectors: build the
blinded vector polynomials, commit to the `t_i` coefficients, derive `x`,
compute the blinding polynomial (with the computed `t_2` blinding), evaluate
everything at `x`, derive `w` and delegate to the inner-product argument. -/
def mkProof (ext : Externals F P C Ipp) (cs : ProverCS F P C) (rand : Rand F)
    (flat : List F × List F × List F × List F) : R1CSProof F C Ipp :=
  let n := cs.a_L.length
  let (wL, wR, wO, wV) := flat
  let y := y_of ext cs rand
  let exp_y_inv := expList y⁻¹ n 1
  let lr := buildLRPolys cs.a_L cs.a_R cs.a_O (sLvec rand n) (sRvec rand n)
    wL wR wO exp_y_inv y n
  let t_poly := lr.1.inner_product lr.2
  let T_1 := ext.compress (cs.pc_gens.commit t_poly.t1 rand.t_1_blinding)
  let T_3 := ext.compress (cs.pc_gens.commit t_poly.t3 rand.t_3_blinding)
  let T_4 := ext.compress (cs.pc_gens.commit t_poly.t4 rand.t_4_blinding)
  let T_5 := ext.compress (cs.pc_gens.commit t_poly.t5 rand.t_5_blinding)
  let T_6 := ext.compress (cs.pc_gens.commit t_poly.t6 rand.t_6_blinding)
  let tT := tAfterZ ext cs rand ++
    [TEvent.point "T_1" T_1, TEvent.point "T_3" T_3, TEvent.point "T_4" T_4,
     TEvent.point "T_5" T_5, TEvent.point "T_6" T_6]
  let x := ext.chal tT "x"
  let t_2_blinding := dotF wV cs.v_blinding
  let t_blinding_poly : Poly6 F :=
    { t1 := rand.t_1_blinding, t2 := t_2_blinding, t3 := rand.t_3_blinding,
      t4 := rand.t_4_blinding, t5 := rand.t_5_blinding, t6 := rand.t_6_blinding }
  let t_x := t_poly.eval x
  let t_x_blinding := t_blinding_poly.eval x
  let l_vec := lr.1.eval x
  let r_vec := lr.2.eval x
  let e_blinding := x * (rand.i_blinding + x * (rand.o_blinding + x * rand.s_blinding))
  let tW := tT ++
    [TEvent.chalEv "x", TEvent.scalarEv "t_x" t_x,
     TEvent.scalarEv "t_x_blinding" t_x_blinding,
     TEvent.scalarEv "e_blinding" e_blinding]
  let w := ext.chal tW "w"
  let Qpt := w • cs.pc_gens.B
  let ipp_proof := ext.ippCreate (tW ++ [TEvent.chalEv "w"]) Qpt exp_y_inv
    (cs.bp_gens.Gv.take n) (cs.bp_gens.Hv.take n) l_vec r_vec
  { A_I := A_I_of ext cs rand, A_O := A_O_of ext cs rand, S := S_of ext cs rand,
    T_1 := T_1, T_3 := T_3, T_4 := T_4, T_5 := T_5, T_6 := T_6,
    t_x := t_x, t_x_blinding := t_x_blinding, e_blinding := e_blinding,
    ipp_proof := ipp_proof }

/-- The challenge `x` of `prove`, recomputed from the padded system, the
randomness and the flattened weight vectors (the transcript at that point
contains the commitments through `T_6`). -/
def x_of (ext : Externals F P C Ipp) (cs : ProverCS F P C) (rand : Rand F)
    (flat : List F × List F × List F × List F) : F :=
  let n := cs.a_L.length
  let (wL, wR, wO, _) := flat
  let y := y_of ext cs rand
  let exp_y_inv := expList y⁻¹ n 1
  let lr := buildLRPolys cs.a_L cs.a_R cs.a_O (sLvec rand n) (sRvec rand n)
    wL wR wO exp_y_inv y n
  let t_poly := lr.1.inner_product lr.2
  let T_1 := ext.compress (cs.pc_gens.commit t_poly.t1 rand.t_1_blinding)
  let T_3 := ext.compress (cs.pc_gens.commit t_poly.t3 rand.t_3_blinding)
  let T_4 := ext.compress (cs.pc_gens.commit t_poly.t4 rand.t_4_blinding)
  let T_5 := ext.compress (cs.pc_gens.commit t_poly.t5 rand.t_5_blinding)
  let T_6 := ext.compress (cs.pc_gens.commit t_poly.t6 rand.t_6_blinding)
  ext.chal (tAfterZ ext cs rand ++
    [TEvent.point "T_1" T_1, TEvent.point "T_3" T_3, TEvent.point "T_4" T_4,
     TEvent.point "T_5" T_5, TEvent.point "T_6" T_6]) "x"

/-- Translation of `ProverCS::prove`: pad the gate count to a power of two,
fail with `InvalidGeneratorsLength` if the generator capacity is smaller than
the padded count, commit to the witness, derive `y` and `z`, flatten the
constraints (a `none` models the panic on an out-of-bounds constraint index),
and assemble the proof artifact. -/
def ProverCS.prove (ext : Externals F P C Ipp) (cs : ProverCS F P C)
    (rand : Rand F) : Option (Except R1CSError (R1CSProof F C Ipp)) :=
  let cs1 := padIfNeeded cs
  if cs1.bp_gens.gens_capacity < cs1.a_L.length then
    some (Except.error R1CSError.InvalidGeneratorsLength)
  else
    match cs1.flattened_constraints (z_of ext cs1 rand) with
    | none => none
    | some flat => some (Except.ok (mkProof ext cs1 rand flat))

/-- The gate-vector length invariant of the spec:
`len(a_L) == len(a_R) == len(a_O)`. -/
def lenInv (cs : ProverCS F P C) : Prop :=
  cs.a_L.length = cs.a_R.length ∧ cs.a_R.length = cs.a_O.length

instance : Fact (Nat.Prime 101) := ⟨by norm_num⟩

deriving instance DecidableEq for Except

/-- Concrete external collaborators over the field `ZMod 101` used to exercise
the definitions: identity compression, a constant challenge function, and a
trivial inner-product argument. -/
def exExternals : Externals (ZMod 101) (ZMod 101) (ZMod 101) Unit :=
  { compress := id, chal := fun _ _ => 2, ippCreate := fun _ _ _ _ _ _ _ => () }

/-- Concrete Bulletproof generators of capacity 1. -/
def exGens : BulletproofGens (ZMod 101) :=
  { gens_capacity := 1, Gv := [1], Hv := [1] }

/-- Concrete Bulletproof generators of capacity 0. -/
def exGens0 : BulletproofGens (ZMod 101) :=
  { gens_capacity := 0, Gv := [], Hv := [] }

/-- Concrete Pedersen generators. -/
def exPC : PedersenGens (ZMod 101) := { B := 1, B_blinding := 1 }

/-- The constraint `c - 12·One = 0` of the spec's concrete test, with `c` the
output wire of gate 0. -/
def exLC : LinearCombination (ZMod 101) :=
  { terms := [(Variable.MultiplierOutput 0, 1), (Variable.One, -12)] }

/-- A constraint whose multiplier-left index 5 is out of range for a one-gate
system. -/
def exLCbad : LinearCombination (ZMod 101) :=
  { terms := [(Variable.MultiplierLeft 5, 1)] }

/-- The spec's concrete test system: one gate `3 * 4 = 12`, no committed
inputs, and the single constraint `c - 12·One = 0`. -/
def exCS : ProverCS (ZMod 101) (ZMod 101) (ZMod 101) :=
  { transcript := [], bp_gens := exGens, pc_gens := exPC, constraints := [exLC],
    a_L := [3], a_R := [4], a_O := [12], v := [], v_blinding := [] }

/-- The test system with the out-of-range constraint registered instead. -/
def exCSbad : ProverCS (ZMod 101) (ZMod 101) (ZMod 101) :=
  { exCS with constraints := [exLCbad] }

/-- The test system with capacity-0 generators. -/
def exCS0 : ProverCS (ZMod 101) (ZMod 101) (ZMod 101) :=
  { exCS with bp_gens := exGens0 }

/-- A three-gate system (gate count not a power of two), for exercising the
padding step. -/
def exCS3 : ProverCS (ZMod 101) (ZMod 101) (ZMod 101) :=
  { exCS with constraints := [], a_L := [3, 1, 1], a_R := [4, 1, 1], a_O := [12, 1, 1] }

/-- Concrete prover randomness. -/
def exRand : Rand (ZMod 101) :=
  { i_blinding := 1, o_blinding := 1, s_blinding := 1, s_L := fun _ => 1,
    s_R := fun _ => 1, t_1_blinding := 1, t_3_blinding := 1, t_4_blinding := 1,
    t_5_blinding := 1, t_6_blinding := 1 }

/-- The proof artifact produced by running `prove` on the concrete test
system (a zero artifact in the unreachable failure branches). -/
def exProof : R1CSProof (ZMod 101) (ZMod 101) Unit :=
  match ProverCS.prove exExternals exCS exRand with
  | some (Except.ok p) => p
  | _ =>
    { A_I := 0, A_O := 0, S := 0, T_1 := 0, T_3 := 0, T_4 := 0, T_5 := 0,
      T_6 := 0, t_x := 0, t_x_blinding := 0, e_blinding := 0, ipp_proof := () }

lemma getD_set (l : List F) (i j : Nat) (x : F) :
    (l.set i x).getD j 0 = if i = j ∧ j < l.length then x else l.getD j 0 := by
  induction l generalizing i j with
  | nil => simp
  | cons a t ih =>
    cases i with
    | zero =>
      cases j with
      | zero => simp
      | succ j => simp
    | succ i =>
      cases j with
      | zero => simp
      | succ j =>
        simpa [Nat.succ_lt_succ_iff] using ih i j

lemma addAt_pos {l : List F} {i : Nat} (x : F) (h : i < l.length) :
    addAt l i x = some (l.set i (l.getD i 0 + x)) := by
  unfold addAt
  rw [dif_pos h]
  rw [List.getD_eq_getElem l 0 h]
  rfl

lemma subAt_pos {l : List F} {i : Nat} (x : F) (h : i < l.length) :
    subAt l i x = some (l.set i (l.getD i 0 - x)) := by
  unfold subAt
  rw [dif_pos h]
  rw [List.getD_eq_getElem l 0 h]
  rfl

lemma coeffOf_cons (v : Variable) (c : F) (rest : List (Variable × F)) (var : Variable) :
    coeffOf ((v, c) :: rest) var = (if v = var then c else 0) + coeffOf rest var := by
  simp [coeffOf]

lemma applyTerms_spec (exp_z : F) :
    ∀ (terms : List (Variable × F)) (st : FlatState F),
      (∀ t ∈ terms,
        t.1.inBounds st.wL.length st.wR.length st.wO.length st.wV.length = true) →
      ∃ st', applyTerms exp_z st terms = some st' ∧
        st'.wL.length = st.wL.length ∧ st'.wR.length = st.wR.length ∧
        st'.wO.length = st.wO.length ∧ st'.wV.length = st.wV.length ∧
        (∀ j, st'.wL.getD j 0 =
          st.wL.getD j 0 + exp_z * coeffOf terms (Variable.MultiplierLeft j)) ∧
        (∀ j, st'.wR.getD j 0 =
          st.wR.getD j 0 + exp_z * coeffOf terms (Variable.MultiplierRight j)) ∧
        (∀ j, st'.wO.getD j 0 =
          st.wO.getD j 0 + exp_z * coeffOf terms (Variable.MultiplierOutput j)) ∧
        (∀ j, st'.wV.getD j 0 =
          st.wV.getD j 0 - exp_z * coeffOf terms (Variable.Committed j)) := by
  intro terms
  induction terms with
  | nil =>
    intro st _
    exact ⟨st, rfl, rfl, rfl, rfl, rfl,
      by simp [coeffOf], by simp [coeffOf], by simp [coeffOf], by simp [coeffOf]⟩
  | cons t rest ih =>
    intro st h
    obtain ⟨var, coeff⟩ := t
    have hbt := h _ (List.mem_cons_self _ _)
    have hrest := fun t ht => h t (List.mem_cons_of_mem _ ht)
    cases var with
    | MultiplierLeft i =>
      have hi : i < st.wL.length := by simpa [Variable.inBounds] using hbt
      have happ : applyTerm exp_z st (Variable.MultiplierLeft i, coeff) =
          some { st with wL := st.wL.set i (st.wL.getD i 0 + exp_z * coeff) } := by
        simp [applyTerm, addAt_pos _ hi]
      obtain ⟨st', hrun, h1, h2, h3, h4, hL, hR, hO, hV⟩ :=
        ih { st with wL := st.wL.set i (st.wL.getD i 0 + exp_z * coeff) }
          (by simpa using hrest)
      refine ⟨st', by simp only [applyTerms, happ]; exact hrun, by simpa using h1, h2, h3, h4,
        ?_, ?_, ?_, ?_⟩
      · intro j
        rw [hL j]
        by_cases hij : i = j
        · subst hij
          simp only [getD_set, coeffOf_cons]
          rw [if_pos (And.intro trivial hi), if_pos trivial]
          ring
        · simp only [getD_set, coeffOf_cons]
          rw [if_neg (by simp [hij]), if_neg (by simp [hij])]
          ring
      · intro j
        rw [hR j, coeffOf_cons, if_neg (by simp)]
        ring
      · intro j
        rw [hO j, coeffOf_cons, if_neg (by simp)]
        ring
      · intro j
        rw [hV j, coeffOf_cons, if_neg (by simp)]
        ring
    | MultiplierRight i =>
      have hi : i < st.wR.length := by simpa [Variable.inBounds] using hbt
      have happ : applyTerm exp_z st (Variable.MultiplierRight i, coeff) =
          some { st with wR := st.wR.set i (st.wR.getD i 0 + exp_z * coeff) } := by
        simp [applyTerm, addAt_pos _ hi]
      obtain ⟨st', hrun, h1, h2, h3, h4, hL, hR, hO, hV⟩ :=
        ih { st with wR := st.wR.set i (st.wR.getD i 0 + exp_z * coeff) }
          (by simpa using hrest)
      refine ⟨st', by simp only [applyTerms, happ]; exact hrun, h1, by simpa using h2, h3, h4,
        ?_, ?_, ?_, ?_⟩
      · intro j
        rw [hL j, coeffOf_cons, if_neg (by simp)]
        ring
      · intro j
        rw [hR j]
        by_cases hij : i = j
        · subst hij
          simp only [getD_set, coeffOf_cons]
          rw [if_pos (And.intro trivial hi), if_pos trivial]
          ring
        · simp only [getD_set, coeffOf_cons]
          rw [if_neg (by simp [hij]), if_neg (by simp [hij])]
          ring
      · intro j
        rw [hO j, coeffOf_cons, if_neg (by simp)]
        ring
      · intro j
        rw [hV j, coeffOf_cons, if_neg (by simp)]
        ring
    | MultiplierOutput i =>
      have hi : i < st.wO.length := by simpa [Variable.inBounds] using hbt
      have happ : applyTerm exp_z st (Variable.MultiplierOutput i, coeff) =
          some { st with wO := st.wO.set i (st.wO.getD i 0 + exp_z * coeff) } := by
        simp [applyTerm, addAt_pos _ hi]
      obtain ⟨st', hrun, h1, h2, h3, h4, hL, hR, hO, hV⟩ :=
        ih { st with wO := st.wO.set i (st.wO.getD i 0 + exp_z * coeff) }
          (by simpa using hrest)
      refine ⟨st', by simp only [applyTerms, happ]; exact hrun, h1, h2, by simpa using h3, h4,
        ?_, ?_, ?_, ?_⟩
      · intro j
        rw [hL j, coeffOf_cons, if_neg (by simp)]
        ring
      · intro j
        rw [hR j, coeffOf_cons, if_neg (by simp)]
        ring
      · intro j
        rw [hO j]
        by_cases hij : i = j
        · subst hij
          simp only [getD_set, coeffOf_cons]
          rw [if_pos (And.intro trivial hi), if_pos trivial]
          ring
        · simp only [getD_set, coeffOf_cons]
          rw [if_neg (by simp [hij]), if_neg (by simp [hij])]
          ring
      · intro j
        rw [hV j, coeffOf_cons, if_neg (by simp)]
        ring
    | Committed i =>
      have hi : i < st.wV.length := by simpa [Variable.inBounds] using hbt
      have happ : applyTerm exp_z st (Variable.Committed i, coeff) =
          some { st with wV := st.wV.set i (st.wV.getD i 0 - exp_z * coeff) } := by
        simp [applyTerm, subAt_pos _ hi]
      obtain ⟨st', hrun, h1, h2, h3, h4, hL, hR, hO, hV⟩ :=
        ih { st with wV := st.wV.set i (st.wV.getD i 0 - exp_z * coeff) }
          (by simpa using hrest)
      refine ⟨st', by simp only [applyTerms, happ]; exact hrun, h1, h2, h3, by simpa using h4,
        ?_, ?_, ?_, ?_⟩
      · intro j
        rw [hL j, coeffOf_cons, if_neg (by simp)]
        ring
      · intro j
        rw [hR j, coeffOf_cons, if_neg (by simp)]
        ring
      · intro j
        rw [hO j, coeffOf_cons, if_neg (by simp)]
        ring
      · intro j
        rw [hV j]
        by_cases hij : i = j
        · subst hij
          simp only [getD_set, coeffOf_cons]
          rw [if_pos (And.intro trivial hi), if_pos trivial]
          ring
        · simp only [getD_set, coeffOf_cons]
          rw [if_neg (by simp [hij]), if_neg (by simp [hij])]
          ring
    | One =>
      obtain ⟨st', hrun, h1, h2, h3, h4, hL, hR, hO, hV⟩ := ih st hrest
      refine ⟨st', by simp only [applyTerms, applyTerm]; exact hrun, h1, h2, h3, h4,
        ?_, ?_, ?_, ?_⟩
      · intro j
        rw [hL j, coeffOf_cons, if_neg (by simp)]
        ring
      · intro j
        rw [hR j, coeffOf_cons, if_neg (by simp)]
        ring
      · intro j
        rw [hO j, coeffOf_cons, if_neg (by simp)]
        ring
      · intro j
        rw [hV j, coeffOf_cons, if_neg (by simp)]
        ring

lemma flatLoop_spec (z : F) :
    ∀ (cls : List (LinearCombination F)) (exp_z : F) (st : FlatState F),
      (∀ lc ∈ cls, ∀ t ∈ lc.terms,
        t.1.inBounds st.wL.length st.wR.length st.wO.length st.wV.length = true) →
      ∃ st', flatLoop z exp_z st cls = some st' ∧
        st'.wL.length = st.wL.length ∧ st'.wR.length = st.wR.length ∧
        st'.wO.length = st.wO.length ∧ st'.wV.length = st.wV.length ∧
        (∀ j, st'.wL.getD j 0 = st.wL.getD j 0 +
          ∑ q ∈ Finset.range cls.length,
            exp_z * z ^ q * coeffOf (cls.getD q ⟨[]⟩).terms (Variable.MultiplierLeft j)) ∧
        (∀ j, st'.wR.getD j 0 = st.wR.getD j 0 +
          ∑ q ∈ Finset.range cls.length,
            exp_z * z ^ q * coeffOf (cls.getD q ⟨[]⟩).terms (Variable.MultiplierRight j)) ∧
        (∀ j, st'.wO.getD j 0 = st.wO.getD j 0 +
          ∑ q ∈ Finset.range cls.length,
            exp_z * z ^ q * coeffOf (cls.getD q ⟨[]⟩).terms (Variable.MultiplierOutput j)) ∧
        (∀ j, st'.wV.getD j 0 = st.wV.getD j 0 -
          ∑ q ∈ Finset.range cls.length,
            exp_z * z ^ q * coeffOf (cls.getD q ⟨[]⟩).terms (Variable.Committed j)) := by
  intro cls
  induction cls with
  | nil =>
    intro exp_z st _
    exact ⟨st, rfl, rfl, rfl, rfl, rfl, by simp, by simp, by simp, by simp⟩
  | cons lc rest ih =>
    intro exp_z st h
    obtain ⟨st1, hrun1, l1, l2, l3, l4, hL1, hR1, hO1, hV1⟩ :=
      applyTerms_spec exp_z lc.terms st (h lc (List.mem_cons_self _ _))
    obtain ⟨st', hrun, k1, k2, k3, k4, hL, hR, hO, hV⟩ :=
      ih (exp_z * z) st1 (by
        intro lc' hlc t ht
        rw [l1, l2, l3, l4]
        exact h lc' (List.mem_cons_of_mem _ hlc) t ht)
    have hsumL : ∀ j : Nat, ∀ q ∈ Finset.range rest.length,
        exp_z * z ^ (q + 1) *
            coeffOf (((lc :: rest).getD (q + 1) ⟨[]⟩)).terms (Variable.MultiplierLeft j) =
          exp_z * z * z ^ q * coeffOf ((rest.getD q ⟨[]⟩)).terms (Variable.MultiplierLeft j) := by
      intro j q _
      rw [List.getD_cons_succ]
      ring
    have hsumR : ∀ j : Nat, ∀ q ∈ Finset.range rest.length,
        exp_z * z ^ (q + 1) *
            coeffOf (((lc :: rest).getD (q + 1) ⟨[]⟩)).terms (Variable.MultiplierRight j) =
          exp_z * z * z ^ q * coeffOf ((rest.getD q ⟨[]⟩)).terms (Variable.MultiplierRight j) := by
      intro j q _
      rw [List.getD_cons_succ]
      ring
    have hsumO : ∀ j : Nat, ∀ q ∈ Finset.range rest.length,
        exp_z * z ^ (q + 1) *
            coeffOf (((lc :: rest).getD (q + 1) ⟨[]⟩)).terms (Variable.MultiplierOutput j) =
          exp_z * z * z ^ q * coeffOf ((rest.getD q ⟨[]⟩)).terms (Variable.MultiplierOutput j) := by
      intro j q _
      rw [List.getD_cons_succ]
      ring
    have hsumV : ∀ j : Nat, ∀ q ∈ Finset.range rest.length,
        exp_z * z ^ (q + 1) *
            coeffOf (((lc :: rest).getD (q + 1) ⟨[]⟩)).terms (Variable.Committed j) =
          exp_z * z * z ^ q * coeffOf ((rest.getD q ⟨[]⟩)).terms (Variable.Committed j) := by
      intro j q _
      rw [List.getD_cons_succ]
      ring
    refine ⟨st', by simp only [flatLoop, hrun1]; exact hrun,
      by rw [k1, l1], by rw [k2, l2], by rw [k3, l3], by rw [k4, l4],
      ?_, ?_, ?_, ?_⟩
    · intro j
      rw [hL j, hL1 j, List.length_cons, Finset.sum_range_succ',
        Finset.sum_congr rfl (hsumL j), List.getD_cons_zero, pow_zero]
      ring
    · intro j
      rw [hR j, hR1 j, List.length_cons, Finset.sum_range_succ',
        Finset.sum_congr rfl (hsumR j), List.getD_cons_zero, pow_zero]
      ring
    · intro j
      rw [hO j, hO1 j, List.length_cons, Finset.sum_range_succ',
        Finset.sum_congr rfl (hsumO j), List.getD_cons_zero, pow_zero]
      ring
    · intro j
      rw [hV j, hV1 j, List.length_cons, Finset.sum_range_succ',
        Finset.sum_congr rfl (hsumV j), List.getD_cons_zero, pow_zero]
      ring

lemma wfB_forall {cs : ProverCS F P C} (h : cs.wfB = true) :
    ∀ lc ∈ cs.constraints, ∀ t ∈ lc.terms,
      (t.1).inBounds cs.a_L.length cs.a_L.length cs.a_L.length cs.v.length = true := by
  intro lc hlc t ht
  have := (List.all_eq_true.mp h) lc hlc
  exact (List.all_eq_true.mp this) t ht

lemma flattened_constraints_spec (cs : ProverCS F P C) (z : F)
    (h : cs.wfB = true) :
    ∃ wL wR wO wV, cs.flattened_constraints z = some (wL, wR, wO, wV) ∧
      wL.length = cs.a_L.length ∧ wR.length = cs.a_L.length ∧
      wO.length = cs.a_L.length ∧ wV.length = cs.v.length ∧
      (∀ j, wL.getD j 0 = ∑ q ∈ Finset.range cs.constraints.length,
        z ^ (q + 1) * coeffOf (cs.constraints.getD q ⟨[]⟩).terms (Variable.MultiplierLeft j)) ∧
      (∀ j, wR.getD j 0 = ∑ q ∈ Finset.range cs.constraints.length,
        z ^ (q + 1) * coeffOf (cs.constraints.getD q ⟨[]⟩).terms (Variable.MultiplierRight j)) ∧
      (∀ j, wO.getD j 0 = ∑ q ∈ Finset.range cs.constraints.length,
        z ^ (q + 1) * coeffOf (cs.constraints.getD q ⟨[]⟩).terms (Variable.MultiplierOutput j)) ∧
      (∀ j, wV.getD j 0 = -∑ q ∈ Finset.range cs.constraints.length,
        z ^ (q + 1) * coeffOf (cs.constraints.getD q ⟨[]⟩).terms (Variable.Committed j)) := by
  obtain ⟨st', hrun, k1, k2, k3, k4, hL, hR, hO, hV⟩ :=
    flatLoop_spec z cs.constraints z
      { wL := List.replicate cs.a_L.length 0, wR := List.replicate cs.a_L.length 0,
        wO := List.replicate cs.a_L.length 0, wV := List.replicate cs.v.length 0 }
      (by simpa using wfB_forall h)
  have hpow : ∀ (var : Variable), ∀ q ∈ Finset.range cs.constraints.length,
      z * z ^ q * coeffOf ((cs.constraints.getD q ⟨[]⟩)).terms var =
        z ^ (q + 1) * coeffOf ((cs.constraints.getD q ⟨[]⟩)).terms var := by
    intro var q _
    rw [pow_succ]
    ring
  refine ⟨st'.wL, st'.wR, st'.wO, st'.wV,
    by simp only [ProverCS.flattened_constraints, hrun, Option.map_some'],
    by simpa using k1, by simpa using k2, by simpa using k3, by simpa using k4,
    ?_, ?_, ?_, ?_⟩
  · intro j
    rw [hL j, ← Finset.sum_congr rfl (hpow (Variable.MultiplierLeft j))]
    simp
  · intro j
    rw [hR j, ← Finset.sum_congr rfl (hpow (Variable.MultiplierRight j))]
    simp
  · intro j
    rw [hO j, ← Finset.sum_congr rfl (hpow (Variable.MultiplierOutput j))]
    simp
  · intro j
    rw [hV j, ← Finset.sum_congr rfl (hpow (Variable.Committed j))]
    simp

lemma applyTerm_some_bounds {exp_z : F} {st st1 : FlatState F} {var : Variable}
    {coeff : F} (h : applyTerm exp_z st (var, coeff) = some st1) :
    var.inBounds st.wL.length st.wR.length st.wO.length st.wV.length = true ∧
    st1.wL.length = st.wL.length ∧ st1.wR.length = st.wR.length ∧
    st1.wO.length = st.wO.length ∧ st1.wV.length = st.wV.length := by
  cases var with
  | MultiplierLeft i =>
    simp only [applyTerm] at h
    unfold addAt at h
    split at h
    next hlt =>
      simp only [Option.map_some'] at h
      cases h
      exact ⟨by simpa [Variable.inBounds] using hlt, by simp, rfl, rfl, rfl⟩
    next hlt => simp at h
  | MultiplierRight i =>
    simp only [applyTerm] at h
    unfold addAt at h
    split at h
    next hlt =>
      simp only [Option.map_some'] at h
      cases h
      exact ⟨by simpa [Variable.inBounds] using hlt, rfl, by simp, rfl, rfl⟩
    next hlt => simp at h
  | MultiplierOutput i =>
    simp only [applyTerm] at h
    unfold addAt at h
    split at h
    next hlt =>
      simp only [Option.map_some'] at h
      cases h
      exact ⟨by simpa [Variable.inBounds] using hlt, rfl, rfl, by simp, rfl⟩
    next hlt => simp at h
  | Committed i =>
    simp only [applyTerm] at h
    unfold subAt at h
    split at h
    next hlt =>
      simp only [Option.map_some'] at h
      cases h
      exact ⟨by simpa [Variable.inBounds] using hlt, rfl, rfl, rfl, by simp⟩
    next hlt => simp at h
  | One =>
    simp only [applyTerm] at h
    cases h
    exact ⟨rfl, rfl, rfl, rfl, rfl⟩

lemma applyTerms_some_bounds (exp_z : F) :
    ∀ (terms : List (Variable × F)) (st st' : FlatState F),
      applyTerms exp_z st terms = some st' →
      (∀ t ∈ terms,
        (t.1).inBounds st.wL.length st.wR.length st.wO.length st.wV.length = true) ∧
      st'.wL.length = st.wL.length ∧ st'.wR.length = st.wR.length ∧
      st'.wO.length = st.wO.length ∧ st'.wV.length = st.wV.length := by
  intro terms
  induction terms with
  | nil =>
    intro st st' h
    cases h
    exact ⟨by simp, rfl, rfl, rfl, rfl⟩
  | cons t rest ih =>
    intro st st' h
    obtain ⟨var, coeff⟩ := t
    simp only [applyTerms] at h
    cases happ : applyTerm exp_z st (var, coeff) with
    | none => rw [happ] at h; exact absurd h (by simp)
    | some st1 =>
      rw [happ] at h
      obtain ⟨hb, e1, e2, e3, e4⟩ := applyTerm_some_bounds happ
      obtain ⟨hrest, f1, f2, f3, f4⟩ := ih st1 st' h
      refine ⟨?_, by rw [f1, e1], by rw [f2, e2], by rw [f3, e3], by rw [f4, e4]⟩
      intro u hu
      rcases List.mem_cons.mp hu with rfl | hu'
      · exact hb
      · have := hrest u hu'
        rwa [e1, e2, e3, e4] at this

lemma flatLoop_some_bounds (z : F) :
    ∀ (cls : List (LinearCombination F)) (exp_z : F) (st st' : FlatState F),
      flatLoop z exp_z st cls = some st' →
      ∀ lc ∈ cls, ∀ t ∈ lc.terms,
        (t.1).inBounds st.wL.length st.wR.length st.wO.length st.wV.length = true := by
  intro cls
  induction cls with
  | nil => intro exp_z st st' _ lc hlc; exact absurd hlc (by simp)
  | cons lc0 rest ih =>
    intro exp_z st st' h lc hlc
    simp only [flatLoop] at h
    cases happ : applyTerms exp_z st lc0.terms with
    | none => rw [happ] at h; exact absurd h (by simp)
    | some st1 =>
      rw [happ] at h
      obtain ⟨hb0, e1, e2, e3, e4⟩ := applyTerms_some_bounds exp_z lc0.terms st st1 happ
      rcases List.mem_cons.mp hlc with rfl | hlc'
      · exact hb0
      · intro t ht
        have := ih (exp_z * z) st1 st' h lc hlc' t ht
        rwa [e1, e2, e3, e4] at this

lemma flattened_isSome_iff (cs : ProverCS F P C) (z : F) :
    (cs.flattened_constraints z).isSome = true ↔ cs.wfB = true := by
  constructor
  · intro h
    rw [Option.isSome_iff_exists] at h
    obtain ⟨flat, hflat⟩ := h
    simp only [ProverCS.flattened_constraints, Option.map_eq_some'] at hflat
    obtain ⟨st', hrun, _⟩ := hflat
    have := flatLoop_some_bounds z cs.constraints z _ st' hrun
    unfold ProverCS.wfB
    rw [List.all_eq_true]
    intro lc hlc
    rw [List.all_eq_true]
    intro t ht
    simpa using this lc hlc t ht
  · intro h
    obtain ⟨wL, wR, wO, wV, hflat, _⟩ := flattened_constraints_spec cs z h
    rw [hflat]
    rfl

lemma flattened_none_of_not_wf (cs : ProverCS F P C) (z : F)
    (h : cs.wfB = false) : cs.flattened_constraints z = none := by
  cases hfl : cs.flattened_constraints z with
  | none => rfl
  | some flat =>
    have : cs.wfB = true := (flattened_isSome_iff cs z).mp (by rw [hfl]; rfl)
    rw [this] at h
    cases h

lemma assign_multiplier_value (cs : ProverCS F P C) (l r o : F) :
    cs.assign_multiplier (Assignment.value l) (Assignment.value r) (Assignment.value o) =
      (Except.ok
        (Variable.MultiplierLeft cs.a_L.length,
         Variable.MultiplierRight cs.a_R.length,
         Variable.MultiplierOutput cs.a_O.length),
       { cs with a_L := cs.a_L ++ [l], a_R := cs.a_R ++ [r], a_O := cs.a_O ++ [o] }) := by
  simp [ProverCS.assign_multiplier]

lemma padLoop_eq : ∀ (k : Nat) (cs : ProverCS F P C),
    padLoop k cs =
      { cs with
        a_L := cs.a_L ++ List.replicate k 0,
        a_R := cs.a_R ++ List.replicate k 0,
        a_O := cs.a_O ++ List.replicate k 0 } := by
  intro k
  induction k with
  | zero => intro cs; simp [padLoop]
  | succ k ih =>
    intro cs
    rw [padLoop, assign_multiplier_value, ih]
    simp [List.replicate_succ, List.append_assoc]

lemma isPow2_two_pow (k : Nat) : isPow2 (2 ^ k) = true := by
  unfold isPow2
  rw [Nat.and_pow_two_sub_one_eq_mod, Nat.mod_self]
  have : (2 : Nat) ^ k ≠ 0 := Nat.pos_iff_ne_zero.mp (Nat.pos_pow_of_pos k (by norm_num))
  simp [this]

lemma nextPow2Fuel_spec : ∀ (fuel n : Nat), n ≤ fuel →
    (∃ k, nextPow2Fuel n fuel = 2 ^ k) ∧ n ≤ nextPow2Fuel n fuel ∧
      ∀ k, n ≤ 2 ^ k → nextPow2Fuel n fuel ≤ 2 ^ k := by
  intro fuel
  induction fuel with
  | zero =>
    intro n hn
    have : n = 0 := Nat.le_zero.mp hn
    subst this
    exact ⟨⟨0, rfl⟩, by simp [nextPow2Fuel], fun k _ => Nat.one_le_two_pow⟩
  | succ fuel ih =>
    intro n hn
    by_cases h1 : n ≤ 1
    · simp only [nextPow2Fuel, if_pos h1]
      exact ⟨⟨0, rfl⟩, h1, fun k _ => Nat.one_le_two_pow⟩
    · have hm : (n + 1) / 2 ≤ fuel := by omega
      obtain ⟨⟨k0, hk0⟩, hge, hmin⟩ := ih ((n + 1) / 2) hm
      simp only [nextPow2Fuel, if_neg h1]
      refine ⟨⟨k0 + 1, by rw [hk0]; ring⟩, ?_, ?_⟩
      · have h2 : n ≤ 2 * ((n + 1) / 2) := by omega
        exact le_trans h2 (Nat.mul_le_mul_left 2 hge)
      · intro k hk
        cases k with
        | zero => simp at hk; omega
        | succ k' =>
          have hpow : (2 : Nat) ^ (k' + 1) = 2 * 2 ^ k' := by ring
          have hhalf : (n + 1) / 2 ≤ 2 ^ k' := by
            rw [hpow] at hk
            omega
          have := hmin k' hhalf
          rw [hpow]
          omega

lemma sum_delta_mul (n i : Nat) (hi : i < n) (c : F) (f : Nat → F) :
    (∑ j ∈ Finset.range n, (if i = j then c else 0) * f j) = c * f i := by
  rw [Finset.sum_eq_single i]
  · rw [if_pos rfl]
  · intro b _ hb
    rw [if_neg (fun hh => hb hh.symm), zero_mul]
  · intro hnotin
    exact absurd (Finset.mem_range.mpr hi) hnotin

lemma expList_length (x : F) : ∀ (n : Nat) (acc : F), (expList x n acc).length = n := by
  intro n
  induction n with
  | zero => intro acc; rfl
  | succ n ih => intro acc; simp [expList, ih]

lemma expList_getD (x : F) : ∀ (n i : Nat) (acc : F), i < n →
    (expList x n acc).getD i 0 = acc * x ^ i := by
  intro n
  induction n with
  | zero => intro i acc hi; exact absurd hi (by omega)
  | succ n ih =>
    intro i acc hi
    cases i with
    | zero => simp [expList]
    | succ i =>
      have := ih i (acc * x) (by omega)
      rw [expList, List.getD_cons_succ, this, pow_succ]
      ring

lemma dotF_eq_sum : ∀ (a b : List F), a.length = b.length →
    dotF a b = ∑ j ∈ Finset.range a.length, a.getD j 0 * b.getD j 0 := by
  intro a
  induction a with
  | nil => intro b _; simp [dotF]
  | cons x xs ih =>
    intro b hb
    cases b with
    | nil => exact absurd hb (by simp)
    | cons y ys =>
      have hlen : xs.length = ys.length := by simpa using hb
      have : dotF (x :: xs) (y :: ys) = x * y + dotF xs ys := by
        simp [dotF]
      rw [this, ih ys hlen, List.length_cons, Finset.sum_range_succ']
      simp [add_comm]

lemma evalWith_decompose (aL aR aO v : List F) :
    ∀ (terms : List (Variable × F)),
      (∀ t ∈ terms, (t.1).inBounds aL.length aR.length aO.length v.length = true) →
      ((terms.map fun t => t.2 * (t.1).valueIn aL aR aO v).sum) =
        (∑ j ∈ Finset.range aL.length,
          coeffOf terms (Variable.MultiplierLeft j) * aL.getD j 0) +
        (∑ j ∈ Finset.range aR.length,
          coeffOf terms (Variable.MultiplierRight j) * aR.getD j 0) +
        (∑ j ∈ Finset.range aO.length,
          coeffOf terms (Variable.MultiplierOutput j) * aO.getD j 0) +
        (∑ j ∈ Finset.range v.length,
          coeffOf terms (Variable.Committed j) * v.getD j 0) +
        coeffOf terms Variable.One := by
  intro terms
  induction terms with
  | nil => simp [coeffOf]
  | cons t rest ih =>
    intro h
    obtain ⟨var, coeff⟩ := t
    have hbt := h _ (List.mem_cons_self _ _)
    have hrest := ih (fun t ht => h t (List.mem_cons_of_mem _ ht))
    simp only [List.map_cons, List.sum_cons, hrest]
    cases var with
    | MultiplierLeft i =>
      have hi : i < aL.length := by simpa [Variable.inBounds] using hbt
      have hT1 : (∑ j ∈ Finset.range aL.length,
          coeffOf ((Variable.MultiplierLeft i, coeff) :: rest)
            (Variable.MultiplierLeft j) * aL.getD j 0) =
          coeff * aL.getD i 0 + ∑ j ∈ Finset.range aL.length,
            coeffOf rest (Variable.MultiplierLeft j) * aL.getD j 0 := by
        simp only [coeffOf_cons, Variable.MultiplierLeft.injEq, add_mul,
          Finset.sum_add_distrib]
        rw [sum_delta_mul aL.length i hi coeff fun j => aL.getD j 0]
      have hT2 : (∑ j ∈ Finset.range aR.length,
          coeffOf ((Variable.MultiplierLeft i, coeff) :: rest)
            (Variable.MultiplierRight j) * aR.getD j 0) =
          ∑ j ∈ Finset.range aR.length,
            coeffOf rest (Variable.MultiplierRight j) * aR.getD j 0 := by
        simp [coeffOf_cons]
      have hT3 : (∑ j ∈ Finset.range aO.length,
          coeffOf ((Variable.MultiplierLeft i, coeff) :: rest)
            (Variable.MultiplierOutput j) * aO.getD j 0) =
          ∑ j ∈ Finset.range aO.length,
            coeffOf rest (Variable.MultiplierOutput j) * aO.getD j 0 := by
        simp [coeffOf_cons]
      have hT4 : (∑ j ∈ Finset.range v.length,
          coeffOf ((Variable.MultiplierLeft i, coeff) :: rest)
            (Variable.Committed j) * v.getD j 0) =
          ∑ j ∈ Finset.range v.length,
            coeffOf rest (Variable.Committed j) * v.getD j 0 := by
        simp [coeffOf_cons]
      have ht5 : coeffOf ((Variable.MultiplierLeft i, coeff) :: rest) Variable.One =
          coeffOf rest Variable.One := by
        simp [coeffOf_cons]
      rw [hT1, hT2, hT3, hT4, ht5]
      simp only [Variable.valueIn]
      ring
    | MultiplierRight i =>
      have hi : i < aR.length := by simpa [Variable.inBounds] using hbt
      have hT1 : (∑ j ∈ Finset.range aL.length,
          coeffOf ((Variable.MultiplierRight i, coeff) :: rest)
            (Variable.MultiplierLeft j) * aL.getD j 0) =
          ∑ j ∈ Finset.range aL.length,
            coeffOf rest (Variable.MultiplierLeft j) * aL.getD j 0 := by
        simp [coeffOf_cons]
      have hT2 : (∑ j ∈ Finset.range aR.length,
          coeffOf ((Variable.MultiplierRight i, coeff) :: rest)
            (Variable.MultiplierRight j) * aR.getD j 0) =
          coeff * aR.getD i 0 + ∑ j ∈ Finset.range aR.length,
            coeffOf rest (Variable.MultiplierRight j) * aR.getD j 0 := by
        simp only [coeffOf_cons, Variable.MultiplierRight.injEq, add_mul,
          Finset.sum_add_distrib]
        rw [sum_delta_mul aR.length i hi coeff fun j => aR.getD j 0]
      have hT3 : (∑ j ∈ Finset.range aO.length,
          coeffOf ((Variable.MultiplierRight i, coeff) :: rest)
            (Variable.MultiplierOutput j) * aO.getD j 0) =
          ∑ j ∈ Finset.range aO.length,
            coeffOf rest (Variable.MultiplierOutput j) * aO.getD j 0 := by
        simp [coeffOf_cons]
      have hT4 : (∑ j ∈ Finset.range v.length,
          coeffOf ((Variable.MultiplierRight i, coeff) :: rest)
            (Variable.Committed j) * v.getD j 0) =
          ∑ j ∈ Finset.range v.length,
            coeffOf rest (Variable.Committed j) * v.getD j 0 := by
        simp [coeffOf_cons]
      have ht5 : coeffOf ((Variable.MultiplierRight i, coeff) :: rest) Variable.One =
          coeffOf rest Variable.One := by
        simp [coeffOf_cons]
      rw [hT1, hT2, hT3, hT4, ht5]
      simp only [Variable.valueIn]
      ring
    | MultiplierOutput i =>
      have hi : i < aO.length := by simpa [Variable.inBounds] using hbt
      have hT1 : (∑ j ∈ Finset.range aL.length,
          coeffOf ((Variable.MultiplierOutput i, coeff) :: rest)
            (Variable.MultiplierLeft j) * aL.getD j 0) =
          ∑ j ∈ Finset.range aL.length,
            coeffOf rest (Variable.MultiplierLeft j) * aL.getD j 0 := by
        simp [coeffOf_cons]
      have hT2 : (∑ j ∈ Finset.range aR.length,
          coeffOf ((Variable.MultiplierOutput i, coeff) :: rest)
            (Variable.MultiplierRight j) * aR.getD j 0) =
          ∑ j ∈ Finset.range aR.length,
            coeffOf rest (Variable.MultiplierRight j) * aR.getD j 0 := by
        simp [coeffOf_cons]
      have hT3 : (∑ j ∈ Finset.range aO.length,
          coeffOf ((Variable.MultiplierOutput i, coeff) :: rest)
            (Variable.MultiplierOutput j) * aO.getD j 0) =
          coeff * aO.getD i 0 + ∑ j ∈ Finset.range aO.length,
            coeffOf rest (Variable.MultiplierOutput j) * aO.getD j 0 := by
        simp only [coeffOf_cons, Variable.MultiplierOutput.injEq, add_mul,
          Finset.sum_add_distrib]
        rw [sum_delta_mul aO.length i hi coeff fun j => aO.getD j 0]
      have hT4 : (∑ j ∈ Finset.range v.length,
          coeffOf ((Variable.MultiplierOutput i, coeff) :: rest)
            (Variable.Committed j) * v.getD j 0) =
          ∑ j ∈ Finset.range v.length,
            coeffOf rest (Variable.Committed j) * v.getD j 0 := by
        simp [coeffOf_cons]
      have ht5 : coeffOf ((Variable.MultiplierOutput i, coeff) :: rest) Variable.One =
          coeffOf rest Variable.One := by
        simp [coeffOf_cons]
      rw [hT1, hT2, hT3, hT4, ht5]
      simp only [Variable.valueIn]
      ring
    | Committed i =>
      have hi : i < v.length := by simpa [Variable.inBounds] using hbt
      have hT1 : (∑ j ∈ Finset.range aL.length,
          coeffOf ((Variable.Committed i, coeff) :: rest)
            (Variable.MultiplierLeft j) * aL.getD j 0) =
          ∑ j ∈ Finset.range aL.length,
            coeffOf rest (Variable.MultiplierLeft j) * aL.getD j 0 := by
        simp [coeffOf_cons]
      have hT2 : (∑ j ∈ Finset.range aR.length,
          coeffOf ((Variable.Committed i, coeff) :: rest)
            (Variable.MultiplierRight j) * aR.getD j 0) =
          ∑ j ∈ Finset.range aR.length,
            coeffOf rest (Variable.MultiplierRight j) * aR.getD j 0 := by
        simp [coeffOf_cons]
      have hT3 : (∑ j ∈ Finset.range aO.length,
          coeffOf ((Variable.Committed i, coeff) :: rest)
            (Variable.MultiplierOutput j) * aO.getD j 0) =
          ∑ j ∈ Finset.range aO.length,
            coeffOf rest (Variable.MultiplierOutput j) * aO.getD j 0 := by
        simp [coeffOf_cons]
      have hT4 : (∑ j ∈ Finset.range v.length,
          coeffOf ((Variable.Committed i, coeff) :: rest)
            (Variable.Committed j) * v.getD j 0) =
          coeff * v.getD i 0 + ∑ j ∈ Finset.range v.length,
            coeffOf rest (Variable.Committed j) * v.getD j 0 := by
        simp only [coeffOf_cons, Variable.Committed.injEq, add_mul,
          Finset.sum_add_distrib]
        rw [sum_delta_mul v.length i hi coeff fun j => v.getD j 0]
      have ht5 : coeffOf ((Variable.Committed i, coeff) :: rest) Variable.One =
          coeffOf rest Variable.One := by
        simp [coeffOf_cons]
      rw [hT1, hT2, hT3, hT4, ht5]
      simp only [Variable.valueIn]
      ring
    | One =>
      have hT1 : (∑ j ∈ Finset.range aL.length,
          coeffOf ((Variable.One, coeff) :: rest)
            (Variable.MultiplierLeft j) * aL.getD j 0) =
          ∑ j ∈ Finset.range aL.length,
            coeffOf rest (Variable.MultiplierLeft j) * aL.getD j 0 := by
        simp [coeffOf_cons]
      have hT2 : (∑ j ∈ Finset.range aR.length,
          coeffOf ((Variable.One, coeff) :: rest)
            (Variable.MultiplierRight j) * aR.getD j 0) =
          ∑ j ∈ Finset.range aR.length,
            coeffOf rest (Variable.MultiplierRight j) * aR.getD j 0 := by
        simp [coeffOf_cons]
      have hT3 : (∑ j ∈ Finset.range aO.length,
          coeffOf ((Variable.One, coeff) :: rest)
            (Variable.MultiplierOutput j) * aO.getD j 0) =
          ∑ j ∈ Finset.range aO.length,
            coeffOf rest (Variable.MultiplierOutput j) * aO.getD j 0 := by
        simp [coeffOf_cons]
      have hT4 : (∑ j ∈ Finset.range v.length,
          coeffOf ((Variable.One, coeff) :: rest)
            (Variable.Committed j) * v.getD j 0) =
          ∑ j ∈ Finset.range v.length,
            coeffOf rest (Variable.Committed j) * v.getD j 0 := by
        simp [coeffOf_cons]
      have ht5 : coeffOf ((Variable.One, coeff) :: rest) Variable.One =
          coeff + coeffOf rest Variable.One := by
        simp [coeffOf_cons]
      rw [hT1, hT2, hT3, hT4, ht5]
      simp only [Variable.valueIn]
      ring

lemma flatten_identity_core (cs : ProverCS F P C) (z : F)
    (hlenR : cs.a_R.length = cs.a_L.length) (hlenO : cs.a_O.length = cs.a_L.length)
    (hwf : cs.wfB = true)
    {wL wR wO wV : List F}
    (hflat : cs.flattened_constraints z = some (wL, wR, wO, wV)) :
    dotF wL cs.a_L + dotF wR cs.a_R + dotF wO cs.a_O - dotF wV cs.v =
      ∑ q ∈ Finset.range cs.constraints.length,
        z ^ (q + 1) *
          ((cs.constraints.getD q ⟨[]⟩).evalWith cs.a_L cs.a_R cs.a_O cs.v -
            coeffOf (cs.constraints.getD q ⟨[]⟩).terms Variable.One) := by
  obtain ⟨wL', wR', wO', wV', hflat', k1, k2, k3, k4, hL, hRR, hOO, hV⟩ :=
    flattened_constraints_spec cs z hwf
  rw [hflat] at hflat'
  obtain ⟨e1, e2, e3, e4⟩ : wL = wL' ∧ wR = wR' ∧ wO = wO' ∧ wV = wV' := by
    simpa using hflat'
  subst e1
  subst e2
  subst e3
  subst e4
  rw [dotF_eq_sum _ _ (by rw [k1]), dotF_eq_sum _ _ (by rw [k2, hlenR]),
    dotF_eq_sum _ _ (by rw [k3, hlenO]), dotF_eq_sum _ _ (by rw [k4]),
    k1, k2, k3, k4]
  have HL : (∑ j ∈ Finset.range cs.a_L.length, wL.getD j 0 * cs.a_L.getD j 0) =
      ∑ q ∈ Finset.range cs.constraints.length, ∑ j ∈ Finset.range cs.a_L.length,
        z ^ (q + 1) * coeffOf (cs.constraints.getD q ⟨[]⟩).terms
          (Variable.MultiplierLeft j) * cs.a_L.getD j 0 := by
    rw [Finset.sum_congr rfl fun j _ => by rw [hL j, Finset.sum_mul]]
    exact Finset.sum_comm
  have HR : (∑ j ∈ Finset.range cs.a_L.length, wR.getD j 0 * cs.a_R.getD j 0) =
      ∑ q ∈ Finset.range cs.constraints.length, ∑ j ∈ Finset.range cs.a_L.length,
        z ^ (q + 1) * coeffOf (cs.constraints.getD q ⟨[]⟩).terms
          (Variable.MultiplierRight j) * cs.a_R.getD j 0 := by
    rw [Finset.sum_congr rfl fun j _ => by rw [hRR j, Finset.sum_mul]]
    exact Finset.sum_comm
  have HO : (∑ j ∈ Finset.range cs.a_L.length, wO.getD j 0 * cs.a_O.getD j 0) =
      ∑ q ∈ Finset.range cs.constraints.length, ∑ j ∈ Finset.range cs.a_L.length,
        z ^ (q + 1) * coeffOf (cs.constraints.getD q ⟨[]⟩).terms
          (Variable.MultiplierOutput j) * cs.a_O.getD j 0 := by
    rw [Finset.sum_congr rfl fun j _ => by rw [hOO j, Finset.sum_mul]]
    exact Finset.sum_comm
  have HV : (∑ j ∈ Finset.range cs.v.length, wV.getD j 0 * cs.v.getD j 0) =
      -∑ q ∈ Finset.range cs.constraints.length, ∑ j ∈ Finset.range cs.v.length,
        z ^ (q + 1) * coeffOf (cs.constraints.getD q ⟨[]⟩).terms
          (Variable.Committed j) * cs.v.getD j 0 := by
    rw [Finset.sum_congr rfl fun j _ => by
      rw [hV j, neg_mul, Finset.sum_mul]]
    rw [Finset.sum_neg_distrib]
    exact congrArg Neg.neg Finset.sum_comm
  rw [HL, HR, HO, HV, sub_neg_eq_add, ← Finset.sum_add_distrib,
    ← Finset.sum_add_distrib, ← Finset.sum_add_distrib]
  refine Finset.sum_congr rfl fun q hq => ?_
  have hqlt : q < cs.constraints.length := Finset.mem_range.mp hq
  have hmem : cs.constraints.getD q ⟨[]⟩ ∈ cs.constraints := by
    rw [List.getD_eq_getElem _ _ hqlt]
    exact List.getElem_mem hqlt
  have hbounds : ∀ t ∈ (cs.constraints.getD q ⟨[]⟩).terms,
      (t.1).inBounds cs.a_L.length cs.a_R.length cs.a_O.length cs.v.length = true := by
    intro t ht
    rw [hlenR, hlenO]
    exact wfB_forall hwf _ hmem t ht
  have hdec := evalWith_decompose cs.a_L cs.a_R cs.a_O cs.v
    (cs.constraints.getD q ⟨[]⟩).terms hbounds
  have heval : (cs.constraints.getD q ⟨[]⟩).evalWith cs.a_L cs.a_R cs.a_O cs.v =
      (∑ j ∈ Finset.range cs.a_L.length,
        coeffOf (cs.constraints.getD q ⟨[]⟩).terms (Variable.MultiplierLeft j) *
          cs.a_L.getD j 0) +
      (∑ j ∈ Finset.range cs.a_L.length,
        coeffOf (cs.constraints.getD q ⟨[]⟩).terms (Variable.MultiplierRight j) *
          cs.a_R.getD j 0) +
      (∑ j ∈ Finset.range cs.a_L.length,
        coeffOf (cs.constraints.getD q ⟨[]⟩).terms (Variable.MultiplierOutput j) *
          cs.a_O.getD j 0) +
      (∑ j ∈ Finset.range cs.v.length,
        coeffOf (cs.constraints.getD q ⟨[]⟩).terms (Variable.Committed j) *
          cs.v.getD j 0) +
      coeffOf (cs.constraints.getD q ⟨[]⟩).terms Variable.One := by
    rw [LinearCombination.evalWith, hdec, hlenR, hlenO]
  rw [heval]
  rw [show ∀ a b c d e : F, a + b + c + d + e - e = a + b + c + d by intros; ring]
  rw [mul_add, mul_add, mul_add, Finset.mul_sum, Finset.mul_sum, Finset.mul_sum,
    Finset.mul_sum]
  rw [Finset.sum_congr rfl fun j _ => (mul_assoc _ _ _),
    Finset.sum_congr rfl fun j _ => (mul_assoc _ _ _)]
  ring

lemma padIfNeeded_transcript (cs : ProverCS F P C) :
    (padIfNeeded cs).transcript = cs.transcript := by
  simp only [padIfNeeded]
  split
  · rfl
  · rw [padLoop_eq]

lemma padIfNeeded_bp_gens (cs : ProverCS F P C) :
    (padIfNeeded cs).bp_gens = cs.bp_gens := by
  simp only [padIfNeeded]
  split
  · rfl
  · rw [padLoop_eq]

lemma padIfNeeded_pc_gens (cs : ProverCS F P C) :
    (padIfNeeded cs).pc_gens = cs.pc_gens := by
  simp only [padIfNeeded]
  split
  · rfl
  · rw [padLoop_eq]

lemma padIfNeeded_constraints (cs : ProverCS F P C) :
    (padIfNeeded cs).constraints = cs.constraints := by
  simp only [padIfNeeded]
  split
  · rfl
  · rw [padLoop_eq]

lemma padIfNeeded_v (cs : ProverCS F P C) :
    (padIfNeeded cs).v = cs.v := by
  simp only [padIfNeeded]
  split
  · rfl
  · rw [padLoop_eq]

lemma padIfNeeded_v_blinding (cs : ProverCS F P C) :
    (padIfNeeded cs).v_blinding = cs.v_blinding := by
  simp only [padIfNeeded]
  split
  · rfl
  · rw [padLoop_eq]

lemma prove_error_iff (ext : Externals F P C Ipp) (cs : ProverCS F P C)
    (rand : Rand F) (e : R1CSError) :
    ProverCS.prove ext cs rand = some (Except.error e) ↔
      (e = R1CSError.InvalidGeneratorsLength ∧
        cs.bp_gens.gens_capacity < (padIfNeeded cs).a_L.length) := by
  rw [← padIfNeeded_bp_gens cs]
  simp only [ProverCS.prove]
  by_cases hcap :
      (padIfNeeded cs).bp_gens.gens_capacity < (padIfNeeded cs).a_L.length
  · rw [if_pos hcap]
    simp [hcap, eq_comm]
  · rw [if_neg hcap]
    cases hfl : (padIfNeeded cs).flattened_constraints
        (z_of ext (padIfNeeded cs) rand) with
    | none => simp [hfl, hcap]
    | some flat => simp [hfl, hcap]

lemma prove_ok_elim (ext : Externals F P C Ipp) (cs : ProverCS F P C)
    (rand : Rand F) (proof : R1CSProof F C Ipp)
    (h : ProverCS.prove ext cs rand = some (Except.ok proof)) :
    ∃ flat, (padIfNeeded cs).flattened_constraints
        (z_of ext (padIfNeeded cs) rand) = some flat ∧
      proof = mkProof ext (padIfNeeded cs) rand flat := by
  simp only [ProverCS.prove] at h
  by_cases hcap :
      (padIfNeeded cs).bp_gens.gens_capacity < (padIfNeeded cs).a_L.length
  · rw [if_pos hcap] at h
    simp at h
  · rw [if_neg hcap] at h
    cases hfl : (padIfNeeded cs).flattened_constraints
        (z_of ext (padIfNeeded cs) rand) with
    | none => rw [hfl] at h; simp at h
    | some flat =>
      rw [hfl] at h
      simp only [Option.some.injEq] at h
      exact ⟨flat, rfl, by
        have := h
        cases this
        rfl⟩

lemma prove_none_of_not_wf (ext : Externals F P C Ipp) (cs : ProverCS F P C)
    (rand : Rand F)
    (hcap : ¬ cs.bp_gens.gens_capacity < (padIfNeeded cs).a_L.length)
    (hwf : (padIfNeeded cs).wfB = false) :
    ProverCS.prove ext cs rand = none := by
  simp only [ProverCS.prove]
  rw [if_neg (by rw [padIfNeeded_bp_gens]; exact hcap)]
  rw [flattened_none_of_not_wf _ _ hwf]

lemma newLoop_spec (ext : Externals F P C Ipp) (pc : PedersenGens P) :
    ∀ (pairs : List (F × F)) (i : Nat),
      newLoop ext pc pairs i =
        (pairs.map fun p => TEvent.point "V" (ext.compress (pc.commit p.1 p.2)),
         pairs.map fun p => ext.compress (pc.commit p.1 p.2),
         (List.range pairs.length).map fun j => Variable.Committed (i + j)) := by
  intro pairs
  induction pairs with
  | nil => intro i; simp [newLoop]
  | cons p rest ih =>
    intro i
    obtain ⟨vi, bi⟩ := p
    simp only [newLoop, ih (i + 1), List.map_cons, List.length_cons]
    simp only [Prod.mk.injEq]
    refine ⟨trivial, trivial, ?_⟩
    rw [List.range_succ_eq_map]
    simp only [List.map_cons, List.map_map, List.cons.injEq]
    refine ⟨by simp, ?_⟩
    refine List.map_congr_left fun j _ => ?_
    simp only [Function.comp_apply]
    congr 1
    omega

lemma zip_map_eq_range_map {α : Type} (f : F × F → α) :
    ∀ (v vb : List F), v.length = vb.length →
      (v.zip vb).map f =
        (List.range v.length).map fun i => f (v.getD i 0, vb.getD i 0) := by
  intro v
  induction v with
  | nil => intro vb _; simp
  | cons x xs ih =>
    intro vb hlen
    cases vb with
    | nil => exact absurd hlen (by simp)
    | cons y ys =>
      have h' : xs.length = ys.length := by simpa using hlen
      simp only [List.zip_cons_cons, List.map_cons, List.length_cons,
        List.range_succ_eq_map, List.map_map, List.cons.injEq]
      refine ⟨by simp, ?_⟩
      rw [ih ys h']
      refine List.map_congr_left fun j _ => ?_
      simp only [Function.comp_apply, List.getD_cons_succ]

/-- C1: for every prover state satisfying the data-model index invariant
(`wfB`), `flattened_constraints z` returns four vectors `wL, wR, wO` of
length `n` and `wV` of length `m` whose entries are the sums, over the
constraints, of each term coefficient scaled by `z^(q+1)` (`q` the 0-indexed
registration position): multiplier-left/right/output coefficients add into
`wL`/`wR`/`wO` at the gate index, `Committed` coefficients subtract into
`wV` at the committed index, and `One` terms contribute nothing. -/
theorem c1_flattened_constraints_entries (cs : ProverCS F P C) (z : F)
    (hwf : cs.wfB = true) :
    ∃ wL wR wO wV, cs.flattened_constraints z = some (wL, wR, wO, wV) ∧
      wL.length = cs.a_L.length ∧ wR.length = cs.a_L.length ∧
      wO.length = cs.a_L.length ∧ wV.length = cs.v.length ∧
      (∀ j, wL.getD j 0 = ∑ q ∈ Finset.range cs.constraints.length,
        z ^ (q + 1) *
          coeffOf (cs.constraints.getD q ⟨[]⟩).terms (Variable.MultiplierLeft j)) ∧
      (∀ j, wR.getD j 0 = ∑ q ∈ Finset.range cs.constraints.length,
        z ^ (q + 1) *
          coeffOf (cs.constraints.getD q ⟨[]⟩).terms (Variable.MultiplierRight j)) ∧
      (∀ j, wO.getD j 0 = ∑ q ∈ Finset.range cs.constraints.length,
        z ^ (q + 1) *
          coeffOf (cs.constraints.getD q ⟨[]⟩).terms (Variable.MultiplierOutput j)) ∧
      (∀ j, wV.getD j 0 = -∑ q ∈ Finset.range cs.constraints.length,
        z ^ (q + 1) *
          coeffOf (cs.constraints.getD q ⟨[]⟩).terms (Variable.Committed j)) :=
  flattened_constraints_spec cs z hwf

/-- Witness for C1: the characterization evaluated on the concrete one-gate
test system at `z = 2`. -/
theorem c1_witness :
    ∃ wL wR wO wV, exCS.flattened_constraints 2 = some (wL, wR, wO, wV) ∧
      wL.length = exCS.a_L.length ∧ wR.length = exCS.a_L.length ∧
      wO.length = exCS.a_L.length ∧ wV.length = exCS.v.length ∧
      (∀ j, wL.getD j 0 = ∑ q ∈ Finset.range exCS.constraints.length,
        (2 : ZMod 101) ^ (q + 1) *
          coeffOf (exCS.constraints.getD q ⟨[]⟩).terms (Variable.MultiplierLeft j)) ∧
      (∀ j, wR.getD j 0 = ∑ q ∈ Finset.range exCS.constraints.length,
        (2 : ZMod 101) ^ (q + 1) *
          coeffOf (exCS.constraints.getD q ⟨[]⟩).terms (Variable.MultiplierRight j)) ∧
      (∀ j, wO.getD j 0 = ∑ q ∈ Finset.range exCS.constraints.length,
        (2 : ZMod 101) ^ (q + 1) *
          coeffOf (exCS.constraints.getD q ⟨[]⟩).terms (Variable.MultiplierOutput j)) ∧
      (∀ j, wV.getD j 0 = -∑ q ∈ Finset.range exCS.constraints.length,
        (2 : ZMod 101) ^ (q + 1) *
          coeffOf (exCS.constraints.getD q ⟨[]⟩).terms (Variable.Committed j)) :=
  c1_flattened_constraints_entries exCS 2 (by decide)

/-- C5: at the start of `prove`, if the gate count is neither zero nor a power
of two, zero-valued gates are appended to `a_L, a_R, a_O` until the count is
the next power of two (which is a power of two, at least the old count, and
minimal such); if the count is zero or already a power of two, nothing is
appended. -/
theorem c5_padding_spec (cs : ProverCS F P C) :
    (¬ (cs.a_L.length = 0 ∨ isPow2 cs.a_L.length = true) →
      padIfNeeded cs =
        { cs with
          a_L := cs.a_L ++
            List.replicate (nextPowerOfTwo cs.a_L.length - cs.a_L.length) 0,
          a_R := cs.a_R ++
            List.replicate (nextPowerOfTwo cs.a_L.length - cs.a_L.length) 0,
          a_O := cs.a_O ++
            List.replicate (nextPowerOfTwo cs.a_L.length - cs.a_L.length) 0 } ∧
      (padIfNeeded cs).a_L.length = nextPowerOfTwo cs.a_L.length ∧
      isPow2 (nextPowerOfTwo cs.a_L.length) = true ∧
      cs.a_L.length ≤ nextPowerOfTwo cs.a_L.length ∧
      (∀ k, cs.a_L.length ≤ 2 ^ k → nextPowerOfTwo cs.a_L.length ≤ 2 ^ k)) ∧
    ((cs.a_L.length = 0 ∨ isPow2 cs.a_L.length = true) → padIfNeeded cs = cs) := by
  obtain ⟨⟨k0, hk0⟩, hge, hmin⟩ :=
    nextPow2Fuel_spec cs.a_L.length cs.a_L.length le_rfl
  constructor
  · intro h
    have hpad : padIfNeeded cs =
        padLoop (nextPowerOfTwo cs.a_L.length - cs.a_L.length) cs := by
      simp only [padIfNeeded]
      rw [if_neg h]
    rw [hpad, padLoop_eq]
    refine ⟨rfl, ?_, ?_, hge, hmin⟩
    · have : cs.a_L.length ≤ nextPowerOfTwo cs.a_L.length := hge
      simp only [List.length_append, List.length_replicate]
      omega
    · rw [nextPowerOfTwo, hk0]
      exact isPow2_two_pow k0
  · intro h
    simp only [padIfNeeded]
    rw [if_pos h]

/-- Witness for C5: a three-gate system is padded to four gates with zero
assignments, and the one-gate (power-of-two) system is left unchanged. -/
theorem c5_witness :
    (padIfNeeded exCS3 =
      { exCS3 with
        a_L := exCS3.a_L ++
          List.replicate (nextPowerOfTwo exCS3.a_L.length - exCS3.a_L.length) 0,
        a_R := exCS3.a_R ++
          List.replicate (nextPowerOfTwo exCS3.a_L.length - exCS3.a_L.length) 0,
        a_O := exCS3.a_O ++
          List.replicate (nextPowerOfTwo exCS3.a_L.length - exCS3.a_L.length) 0 }) ∧
    (padIfNeeded exCS3).a_L.length = nextPowerOfTwo exCS3.a_L.length ∧
    padIfNeeded exCS = exCS :=
  ⟨((c5_padding_spec exCS3).1 (by decide)).1,
   ((c5_padding_spec exCS3).1 (by decide)).2.1,
   (c5_padding_spec exCS).2 (by decide)⟩

/-- C6: `prove` returns the generator-capacity error exactly when the
generator capacity is smaller than the padded gate count, and gate
allocation (`assign_multiplier` / `assign_uncommitted`) never fails with
that error. -/
theorem c6_generator_capacity_error (ext : Externals F P C Ipp)
    (cs : ProverCS F P C) (rand : Rand F) :
    (∀ e, ProverCS.prove ext cs rand = some (Except.error e) ↔
      (e = R1CSError.InvalidGeneratorsLength ∧
        cs.bp_gens.gens_capacity < (padIfNeeded cs).a_L.length)) ∧
    (∀ left right out, (cs.assign_multiplier left right out).1 ≠
      Except.error R1CSError.InvalidGeneratorsLength) ∧
    (∀ val_1 val_2, (cs.assign_uncommitted val_1 val_2).1 ≠
      Except.error R1CSError.InvalidGeneratorsLength) := by
  refine ⟨fun e => prove_error_iff ext cs rand e, ?_, ?_⟩
  · intro l r o
    cases l <;> cases r <;> cases o <;> simp [ProverCS.assign_multiplier]
  · intro v1 v2
    cases v1 <;> cases v2 <;>
      simp [ProverCS.assign_uncommitted, ProverCS.assign_multiplier,
        Assignment.mul]

/-- Witness for C6: capacity-0 generators make the one-gate `prove` fail with
the generator-length error, while allocation on the same system does not
raise it. -/
theorem c6_witness :
    ProverCS.prove exExternals exCS0 exRand =
      some (Except.error R1CSError.InvalidGeneratorsLength) ∧
    (exCS0.assign_multiplier (Assignment.value 1) (Assignment.value 1)
      (Assignment.value 1)).1 ≠ Except.error R1CSError.InvalidGeneratorsLength :=
  ⟨((c6_generator_capacity_error exExternals exCS0 exRand).1 _).mpr
      ⟨rfl, by decide⟩,
   (c6_generator_capacity_error exExternals exCS0 exRand).2.1 _ _ _⟩

/-- C7: `assign_multiplier` errs with the missing-assignment error exactly
when one of its three inputs is missing, in which case the state is
unchanged (no partial push); when all inputs are known, each witness array
grows by exactly one element and the returned variables carry index
`len(a_L) - 1`. -/
theorem c7_assign_multiplier_spec (cs : ProverCS F P C)
    (left right out : Assignment F) :
    ((cs.assign_multiplier left right out).1 =
        Except.error R1CSError.MissingAssignment ↔
      (left = Assignment.missing ∨ right = Assignment.missing ∨
        out = Assignment.missing)) ∧
    ((left = Assignment.missing ∨ right = Assignment.missing ∨
        out = Assignment.missing) →
      (cs.assign_multiplier left right out).2 = cs) ∧
    (∀ l r o,
      cs.assign_multiplier (Assignment.value l) (Assignment.value r)
          (Assignment.value o) =
        (Except.ok
          (Variable.MultiplierLeft ((cs.a_L ++ [l]).length - 1),
           Variable.MultiplierRight ((cs.a_R ++ [r]).length - 1),
           Variable.MultiplierOutput ((cs.a_O ++ [o]).length - 1)),
         { cs with a_L := cs.a_L ++ [l], a_R := cs.a_R ++ [r],
                   a_O := cs.a_O ++ [o] }) ∧
      (cs.a_L ++ [l]).length = cs.a_L.length + 1 ∧
      (cs.a_R ++ [r]).length = cs.a_R.length + 1 ∧
      (cs.a_O ++ [o]).length = cs.a_O.length + 1 ∧
      (cs.a_L ++ [l]).length - 1 = cs.a_L.length) := by
  refine ⟨?_, ?_, ?_⟩
  · cases left <;> cases right <;> cases out <;>
      simp [ProverCS.assign_multiplier]
  · intro h
    cases left with
    | missing => simp [ProverCS.assign_multiplier]
    | value l =>
      cases right with
      | missing => simp [ProverCS.assign_multiplier]
      | value r =>
        cases out with
        | missing => simp [ProverCS.assign_multiplier]
        | value o => simp at h
  · intro l r o
    refine ⟨?_, by simp, by simp, by simp, by simp⟩
    rw [assign_multiplier_value]
    simp

/-- Witness for C7: a missing middle input errs and leaves the concrete state
unchanged. -/
theorem c7_witness :
    (exCS.assign_multiplier (Assignment.value 1) Assignment.missing
      (Assignment.value 1)).1 = Except.error R1CSError.MissingAssignment ∧
    (exCS.assign_multiplier (Assignment.value 1) Assignment.missing
      (Assignment.value 1)).2 = exCS :=
  ⟨(c7_assign_multiplier_spec exCS _ _ _).1.mpr (Or.inr (Or.inl rfl)),
   (c7_assign_multiplier_spec exCS _ _ _).2.1 (Or.inr (Or.inl rfl))⟩

/-- C10: under the data-model index invariant `flattened_constraints` never
hits its out-of-range branch; `add_constraint` performs no bounds check; and
a registered constraint with an out-of-range index makes `prove` panic
(`none`) rather than return an error. -/
theorem c10_flatten_bounds_safety (ext : Externals F P C Ipp) :
    (∀ (cs : ProverCS F P C) (z : F), cs.wfB = true →
      (cs.flattened_constraints z).isSome = true) ∧
    (∀ (cs : ProverCS F P C) (lc : LinearCombination F),
      cs.add_constraint lc = { cs with constraints := cs.constraints ++ [lc] }) ∧
    (∀ (cs : ProverCS F P C) (rand : Rand F),
      ¬ cs.bp_gens.gens_capacity < (padIfNeeded cs).a_L.length →
      (padIfNeeded cs).wfB = false →
      ProverCS.prove ext cs rand = none) :=
  ⟨fun cs z h => (flattened_isSome_iff cs z).mpr h,
   fun _ _ => rfl,
   fun cs rand hcap hwf => prove_none_of_not_wf ext cs rand hcap hwf⟩

/-- Witness for C10: the in-bounds test system flattens successfully, while
registering a constraint with gate index 5 in a one-gate system makes
`prove` panic. -/
theorem c10_witness :
    (exCS.flattened_constraints 2).isSome = true ∧
    ProverCS.prove exExternals exCSbad exRand = none :=
  ⟨(c10_flatten_bounds_safety exExternals).1 exCS 2 (by decide),
   (c10_flatten_bounds_safety exExternals).2.2 exCSbad exRand (by decide)
     (by decide)⟩

lemma getD_replicate0 (n i : Nat) : (List.replicate n (0 : F)).getD i 0 = 0 := by
  induction n generalizing i with
  | zero => simp
  | succ n ih => cases i <;> simp [List.replicate_succ, ih]

lemma getD_range_map (f : Nat → F) (n i : Nat) (hi : i < n) :
    ((List.range n).map f).getD i 0 = f i := by
  rw [List.getD_eq_getElem _ _ (by simpa using hi)]
  simp

/-- C2 counterexample: on the spec's own concrete test (one gate `3*4=12`,
no committed inputs, the single constraint `c - 12·One = 0`, challenge
`z = 2`), the registered constraint evaluates to zero under the witness and
flattening yields `wO = [2]` with zero `wL`, `wR`, `wV`, yet
`Σ(wL·a_L + wR·a_R + wO·a_O) - Σ wV·v = 24 ≠ 0`: the claimed identity fails
because the dropped `One` coefficient is not accounted for. -/
theorem c2_counterexample :
    exLC.evalWith exCS.a_L exCS.a_R exCS.a_O exCS.v = 0 ∧
    exCS.flattened_constraints 2 = some ([0], [0], [2], []) ∧
    dotF [0] exCS.a_L + dotF [0] exCS.a_R + dotF [2] exCS.a_O - dotF [] exCS.v =
      24 ∧
    (24 : ZMod 101) ≠ 0 :=
  ⟨by decide, by decide, by decide, by decide⟩

/-- C2 (amended): whenever every registered constraint evaluates to zero
under the witness (with `One = 1`), the flattened vectors satisfy
`Σ(wL·a_L + wR·a_R + wO·a_O) - Σ wV·v + Σ_q z^(q+1)·c_q = 0`, where `c_q`
is the total `One` coefficient of the `q`-th constraint — the identity of
the claim holds only after restoring the constant term the prover drops. -/
theorem c2_flatten_identity_amended (cs : ProverCS F P C) (z : F)
    (hR : cs.a_R.length = cs.a_L.length) (hO : cs.a_O.length = cs.a_L.length)
    (hwf : cs.wfB = true)
    (hzero : ∀ lc ∈ cs.constraints, lc.evalWith cs.a_L cs.a_R cs.a_O cs.v = 0)
    (wL wR wO wV : List F)
    (hflat : cs.flattened_constraints z = some (wL, wR, wO, wV)) :
    dotF wL cs.a_L + dotF wR cs.a_R + dotF wO cs.a_O - dotF wV cs.v +
      ∑ q ∈ Finset.range cs.constraints.length,
        z ^ (q + 1) * coeffOf (cs.constraints.getD q ⟨[]⟩).terms Variable.One =
      0 := by
  rw [flatten_identity_core cs z hR hO hwf hflat, ← Finset.sum_add_distrib]
  refine Finset.sum_eq_zero fun q hq => ?_
  have hmem : cs.constraints.getD q ⟨[]⟩ ∈ cs.constraints := by
    rw [List.getD_eq_getElem _ _ (Finset.mem_range.mp hq)]
    exact List.getElem_mem _
  rw [hzero _ hmem]
  ring

/-- Witness for the amended C2: the corrected identity evaluated on the
concrete test system (`24 - 24 = 0`). -/
theorem c2_amended_witness :
    dotF [0] exCS.a_L + dotF [0] exCS.a_R + dotF [2] exCS.a_O - dotF [] exCS.v +
      ∑ q ∈ Finset.range exCS.constraints.length,
        (2 : ZMod 101) ^ (q + 1) *
          coeffOf (exCS.constraints.getD q ⟨[]⟩).terms Variable.One = 0 :=
  c2_flatten_identity_amended exCS 2 (by decide) (by decide) (by decide)
    (by decide) [0] [0] [2] [] (by decide)

/-- C3: the vector polynomials built in `prove` have exactly the coefficients
of the claim at every index `i < n`: `l = (0, a_L[i] + y⁻ⁱ·wR[i], a_O[i],
s_L[i])` and `r = (wO[i] − yⁱ, yⁱ·a_R[i] + wL[i], 0, yⁱ·s_R[i])`, powers of
`y` 0-indexed. -/
theorem c3_lr_poly_coeffs (aL aR aO sL sR wL wR wO : List F) (y : F)
    (n i : Nat) (hi : i < n) :
    ((buildLRPolys aL aR aO sL sR wL wR wO (expList y⁻¹ n 1) y n).1.c0.getD i 0 =
        0 ∧
      (buildLRPolys aL aR aO sL sR wL wR wO (expList y⁻¹ n 1) y n).1.c1.getD i 0 =
        aL.getD i 0 + y⁻¹ ^ i * wR.getD i 0 ∧
      (buildLRPolys aL aR aO sL sR wL wR wO (expList y⁻¹ n 1) y n).1.c2.getD i 0 =
        aO.getD i 0 ∧
      (buildLRPolys aL aR aO sL sR wL wR wO (expList y⁻¹ n 1) y n).1.c3.getD i 0 =
        sL.getD i 0) ∧
    ((buildLRPolys aL aR aO sL sR wL wR wO (expList y⁻¹ n 1) y n).2.c0.getD i 0 =
        wO.getD i 0 - y ^ i ∧
      (buildLRPolys aL aR aO sL sR wL wR wO (expList y⁻¹ n 1) y n).2.c1.getD i 0 =
        y ^ i * aR.getD i 0 + wL.getD i 0 ∧
      (buildLRPolys aL aR aO sL sR wL wR wO (expList y⁻¹ n 1) y n).2.c2.getD i 0 =
        0 ∧
      (buildLRPolys aL aR aO sL sR wL wR wO (expList y⁻¹ n 1) y n).2.c3.getD i 0 =
        y ^ i * sR.getD i 0) := by
  have hyi : (expList y n 1).getD i 0 = y ^ i := by
    rw [expList_getD y n i 1 hi, one_mul]
  have hyinv : (expList y⁻¹ n 1).getD i 0 = y⁻¹ ^ i := by
    rw [expList_getD y⁻¹ n i 1 hi, one_mul]
  refine ⟨⟨?_, ?_, ?_, ?_⟩, ?_, ?_, ?_, ?_⟩ <;>
    simp only [buildLRPolys, getD_range_map _ _ _ hi, getD_replicate0, hyi,
      hyinv]

/-- Witness for C3: the coefficient formulas evaluated on a concrete one-gate
instance at index 0 with `y = 2`. -/
theorem c3_witness :
    ((buildLRPolys [(3 : ZMod 101)] [4] [12] [5] [6] [7] [8] [9]
        (expList (2 : ZMod 101)⁻¹ 1 1) 2 1).1.c0.getD 0 0 = 0 ∧
      (buildLRPolys [(3 : ZMod 101)] [4] [12] [5] [6] [7] [8] [9]
        (expList (2 : ZMod 101)⁻¹ 1 1) 2 1).1.c1.getD 0 0 =
        List.getD [(3 : ZMod 101)] 0 0 +
          (2 : ZMod 101)⁻¹ ^ 0 * List.getD [(8 : ZMod 101)] 0 0 ∧
      (buildLRPolys [(3 : ZMod 101)] [4] [12] [5] [6] [7] [8] [9]
        (expList (2 : ZMod 101)⁻¹ 1 1) 2 1).1.c2.getD 0 0 =
        List.getD [(12 : ZMod 101)] 0 0 ∧
      (buildLRPolys [(3 : ZMod 101)] [4] [12] [5] [6] [7] [8] [9]
        (expList (2 : ZMod 101)⁻¹ 1 1) 2 1).1.c3.getD 0 0 =
        List.getD [(5 : ZMod 101)] 0 0) ∧
    ((buildLRPolys [(3 : ZMod 101)] [4] [12] [5] [6] [7] [8] [9]
        (expList (2 : ZMod 101)⁻¹ 1 1) 2 1).2.c0.getD 0 0 =
        List.getD [(9 : ZMod 101)] 0 0 - (2 : ZMod 101) ^ 0 ∧
      (buildLRPolys [(3 : ZMod 101)] [4] [12] [5] [6] [7] [8] [9]
        (expList (2 : ZMod 101)⁻¹ 1 1) 2 1).2.c1.getD 0 0 =
        (2 : ZMod 101) ^ 0 * List.getD [(4 : ZMod 101)] 0 0 +
          List.getD [(7 : ZMod 101)] 0 0 ∧
      (buildLRPolys [(3 : ZMod 101)] [4] [12] [5] [6] [7] [8] [9]
        (expList (2 : ZMod 101)⁻¹ 1 1) 2 1).2.c2.getD 0 0 = 0 ∧
      (buildLRPolys [(3 : ZMod 101)] [4] [12] [5] [6] [7] [8] [9]
        (expList (2 : ZMod 101)⁻¹ 1 1) 2 1).2.c3.getD 0 0 =
        (2 : ZMod 101) ^ 0 * List.getD [(6 : ZMod 101)] 0 0) :=
  c3_lr_poly_coeffs [(3 : ZMod 101)] [4] [12] [5] [6] [7] [8] [9] 2 1 0
    (by decide)

/-- C4: `new`, on openings of equal length `m`, absorbs the domain-separation
tag for `m` before any commitment, then for each `i < m` commits to
`(v[i], v_blinding[i])`, absorbs the compressed commitment under label `V`
and allocates `Committed(i)`; it returns the system with empty gate and
constraint lists, the variables `[Committed 0, ..., Committed (m-1)]` and the
`m` compressed commitments.  On unequal lengths the assertion fails
(`none`). -/
theorem c4_new_spec (ext : Externals F P C Ipp) (bp : BulletproofGens P)
    (pc : PedersenGens P) (transcript : List (TEvent F C))
    (v v_blinding : List F) :
    (v.length = v_blinding.length →
      ProverCS.new ext bp pc transcript v v_blinding =
        some
          ({ transcript := transcript ++ TEvent.domainSep v.length ::
              ((List.range v.length).map fun i =>
                TEvent.point "V"
                  (ext.compress (pc.commit (v.getD i 0) (v_blinding.getD i 0)))),
             bp_gens := bp, pc_gens := pc, constraints := [],
             a_L := [], a_R := [], a_O := [], v := v,
             v_blinding := v_blinding },
           (List.range v.length).map Variable.Committed,
           (List.range v.length).map fun i =>
             ext.compress (pc.commit (v.getD i 0) (v_blinding.getD i 0)))) ∧
    (v.length ≠ v_blinding.length →
      ProverCS.new ext bp pc transcript v v_blinding = none) := by
  constructor
  · intro hlen
    simp only [ProverCS.new, if_pos hlen, newLoop_spec]
    rw [zip_map_eq_range_map _ v v_blinding hlen,
      zip_map_eq_range_map _ v v_blinding hlen, List.length_zip, ← hlen,
      min_self]
    simp
  · intro hlen
    simp [ProverCS.new, hlen]

/-- Witness for C4: construction on one opening `(10, 20)` and the assertion
failure on mismatched lengths. -/
theorem c4_witness :
    ProverCS.new exExternals exGens exPC [] [(10 : ZMod 101)] [20] =
      some
        ({ transcript := [] ++
            TEvent.domainSep (List.length [(10 : ZMod 101)]) ::
              ((List.range (List.length [(10 : ZMod 101)])).map fun i =>
                TEvent.point "V"
                  (exExternals.compress
                    (exPC.commit (List.getD [(10 : ZMod 101)] i 0)
                      (List.getD [(20 : ZMod 101)] i 0)))),
           bp_gens := exGens, pc_gens := exPC, constraints := [],
           a_L := [], a_R := [], a_O := [], v := [(10 : ZMod 101)],
           v_blinding := [20] },
         (List.range (List.length [(10 : ZMod 101)])).map Variable.Committed,
         (List.range (List.length [(10 : ZMod 101)])).map fun i =>
           exExternals.compress
             (exPC.commit (List.getD [(10 : ZMod 101)] i 0)
               (List.getD [(20 : ZMod 101)] i 0))) ∧
    ProverCS.new exExternals exGens exPC [] [(10 : ZMod 101)] [] = none :=
  ⟨(c4_new_spec exExternals exGens exPC [] [(10 : ZMod 101)] [20]).1 rfl,
   (c4_new_spec exExternals exGens exPC [] [(10 : ZMod 101)] []).2 (by decide)⟩

/-- C8: when `prove` succeeds, the blinding for the `t_2` coefficient is
computed (not sampled) as the inner product of the flattened `wV` with
`v_blinding` — it is the `t2` slot of the blinding polynomial evaluated into
`t_x_blinding` — and the aggregate blinding is
`e_blinding = x·(i_blinding + x·(o_blinding + x·s_blinding))` at the
evaluation challenge `x`. -/
theorem c8_blinding_spec (ext : Externals F P C Ipp) (cs : ProverCS F P C)
    (rand : Rand F) (proof : R1CSProof F C Ipp) (wL wR wO wV : List F)
    (hflat : (padIfNeeded cs).flattened_constraints
        (z_of ext (padIfNeeded cs) rand) = some (wL, wR, wO, wV))
    (hok : ProverCS.prove ext cs rand = some (Except.ok proof)) :
    proof.e_blinding =
      x_of ext (padIfNeeded cs) rand (wL, wR, wO, wV) *
        (rand.i_blinding +
          x_of ext (padIfNeeded cs) rand (wL, wR, wO, wV) *
            (rand.o_blinding +
              x_of ext (padIfNeeded cs) rand (wL, wR, wO, wV) *
                rand.s_blinding)) ∧
    proof.t_x_blinding =
      Poly6.eval
        { t1 := rand.t_1_blinding, t2 := dotF wV cs.v_blinding,
          t3 := rand.t_3_blinding, t4 := rand.t_4_blinding,
          t5 := rand.t_5_blinding, t6 := rand.t_6_blinding }
        (x_of ext (padIfNeeded cs) rand (wL, wR, wO, wV)) := by
  obtain ⟨flat, hflat', hproof⟩ := prove_ok_elim ext cs rand proof hok
  rw [hflat] at hflat'
  have hfl : (wL, wR, wO, wV) = flat := by simpa using hflat'
  subst hfl
  subst hproof
  rw [← padIfNeeded_v_blinding cs]
  exact ⟨rfl, rfl⟩

/-- Witness for C8: the blinding equations evaluated on the concrete one-gate
`prove` run. -/
theorem c8_witness :
    exProof.e_blinding =
      x_of exExternals (padIfNeeded exCS) exRand ([0], [0], [2], []) *
        (exRand.i_blinding +
          x_of exExternals (padIfNeeded exCS) exRand ([0], [0], [2], []) *
            (exRand.o_blinding +
              x_of exExternals (padIfNeeded exCS) exRand ([0], [0], [2], []) *
                exRand.s_blinding)) ∧
    exProof.t_x_blinding =
      Poly6.eval
        { t1 := exRand.t_1_blinding, t2 := dotF [] exCS.v_blinding,
          t3 := exRand.t_3_blinding, t4 := exRand.t_4_blinding,
          t5 := exRand.t_5_blinding, t6 := exRand.t_6_blinding }
        (x_of exExternals (padIfNeeded exCS) exRand ([0], [0], [2], [])) :=
  c8_blinding_spec exExternals exCS exRand exProof [0] [0] [2] []
    (by decide) (by decide)

/-- C9: the invariant `len(a_L) == len(a_R) == len(a_O)` is preserved by
every operation on the prover constraint system (gate allocation, constraint
registration, challenge extraction, and the padding step of `prove`), no
operation changes `v` or `v_blinding`, and construction fixes
`len(v) == len(v_blinding) == len(commitments)` with empty gate vectors. -/
theorem c9_length_invariants (ext : Externals F P C Ipp)
    (cs : ProverCS F P C) :
    (∀ left right out, lenInv cs →
      lenInv (cs.assign_multiplier left right out).2 ∧
      (cs.assign_multiplier left right out).2.v = cs.v ∧
      (cs.assign_multiplier left right out).2.v_blinding = cs.v_blinding) ∧
    (∀ val_1 val_2, lenInv cs →
      lenInv (cs.assign_uncommitted val_1 val_2).2 ∧
      (cs.assign_uncommitted val_1 val_2).2.v = cs.v ∧
      (cs.assign_uncommitted val_1 val_2).2.v_blinding = cs.v_blinding) ∧
    (∀ lc, lenInv cs → lenInv (cs.add_constraint lc) ∧
      (cs.add_constraint lc).v = cs.v ∧
      (cs.add_constraint lc).v_blinding = cs.v_blinding) ∧
    (∀ label, lenInv cs → lenInv (cs.challenge_scalar ext label).2 ∧
      (cs.challenge_scalar ext label).2.v = cs.v ∧
      (cs.challenge_scalar ext label).2.v_blinding = cs.v_blinding) ∧
    (lenInv cs → lenInv (padIfNeeded cs)) ∧
    ((padIfNeeded cs).v = cs.v ∧ (padIfNeeded cs).v_blinding = cs.v_blinding) ∧
    (∀ (bp : BulletproofGens P) (pc : PedersenGens P)
        (transcript : List (TEvent F C)) (v v_blinding : List F)
        (cs' : ProverCS F P C) (vars : List Variable) (comms : List C),
      ProverCS.new ext bp pc transcript v v_blinding =
          some (cs', vars, comms) →
      lenInv cs' ∧ cs'.v = v ∧ cs'.v_blinding = v_blinding ∧
      comms.length = v.length ∧ v.length = v_blinding.length) := by
  refine ⟨?_, ?_, ?_, ?_, ?_, ⟨padIfNeeded_v cs, padIfNeeded_v_blinding cs⟩, ?_⟩
  · intro left right out h
    cases left <;> cases right <;> cases out <;>
      simp_all [ProverCS.assign_multiplier, lenInv]
  · intro val_1 val_2 h
    cases val_1 <;> cases val_2 <;>
      simp_all [ProverCS.assign_uncommitted, ProverCS.assign_multiplier,
        Assignment.mul, lenInv]
  · intro lc h
    exact ⟨h, rfl, rfl⟩
  · intro label h
    exact ⟨h, rfl, rfl⟩
  · intro h
    simp only [padIfNeeded]
    split
    · exact h
    · rw [padLoop_eq]
      obtain ⟨h1, h2⟩ := h
      constructor <;> simp [h1, h2]
  · intro bp pc transcript v v_blinding cs' vars comms hnew
    by_cases hlen : v.length = v_blinding.length
    · simp only [ProverCS.new, if_pos hlen, newLoop_spec] at hnew
      obtain ⟨hcs, hvars, hcomms⟩ : _ ∧ _ ∧ _ := by simpa using hnew
      subst hcs
      refine ⟨⟨rfl, rfl⟩, rfl, rfl, ?_, hlen⟩
      rw [← hcomms]
      simp [List.length_zip, ← hlen]
    · simp [ProverCS.new, hlen] at hnew

/-- Witness for C9: the invariants evaluated on the concrete test system and
a concrete construction. -/
theorem c9_witness :
    lenInv (exCS.assign_multiplier (Assignment.value 1) (Assignment.value 1)
      (Assignment.value 1)).2 ∧
    lenInv (padIfNeeded exCS3) ∧
    (padIfNeeded exCS3).v = exCS3.v := by
  refine ⟨((c9_length_invariants exExternals exCS).1 _ _ _ ⟨rfl, rfl⟩).1,
    (c9_length_invariants exExternals exCS3).2.2.2.2.1 ⟨rfl, rfl⟩,
    (c9_length_invariants exExternals exCS3).2.2.2.2.2.1.1⟩

end Bulletproofs
